import Mathlib

/-!
Verification of the Multi-LLM Evaluation Orchestration Engine of doc_analyzer.

This file shallowly embeds the core functions of
`app/services/llm_evaluator.py` and `app/services/rate_limiter.py` in Lean 4
and proves (or refutes) the specification claims about them.

Modelling conventions:
* Python dynamic values are modelled by the inductive type `PyVal`; Python
  dicts are association lists with distinct keys in insertion order.
* Python numbers are modelled exactly: `int` by `Int`, `float` by `Rat`
  (the claims under scrutiny only involve values that IEEE doubles represent
  exactly, so rational arithmetic is a faithful model there).
* Raising an exception is modelled by `Except`; an uncaught TypeError raised
  by comparing or multiplying a non-numeric value is `Except.error ()`.
* Wall-clock time is modelled by `Rat` seconds; `time.sleep` and
  `datetime.now()` readings become explicit time parameters constrained by
  monotonicity hypotheses.
-/

namespace DocAnalyzer

/-- Model of a Python/JSON dynamic value. -/
inductive PyVal where
  | pyNone : PyVal
  | pyBool : Bool → PyVal
  | pyInt : Int → PyVal
  | pyFloat : Rat → PyVal
  | pyStr : String → PyVal
  | pyList : List PyVal → PyVal
  | pyDict : List (String × PyVal) → PyVal

/-- A Python dict: association list, insertion order, keys unique. -/
abbrev PyDict := List (String × PyVal)

/-- `d.get(k)` / `d[k]`: first (only) binding of `k`. -/
def dget (d : PyDict) (k : String) : Option PyVal :=
  (d.find? (fun kv => kv.1 = k)).map (fun kv => kv.2)

/-- `d.get(k, default)`. -/
def dgetD (d : PyDict) (k : String) (v : PyVal) : PyVal :=
  (dget d k).getD v

/-- `k in d`. -/
def hasKey (d : PyDict) (k : String) : Bool :=
  (dget d k).isSome

/-- Python truthiness (`bool(v)`), as used by `if result:` checks. -/
def pyTruthy : PyVal → Bool
  | PyVal.pyNone => false
  | PyVal.pyBool b => b
  | PyVal.pyInt n => n ≠ 0
  | PyVal.pyFloat q => q ≠ 0
  | PyVal.pyStr s => s ≠ ""
  | PyVal.pyList xs => ¬ xs.isEmpty
  | PyVal.pyDict kvs => ¬ kvs.isEmpty

/-- Numeric view of a value: `isinstance(v, (int, float))` succeeds exactly
when this is `some` (Python `bool` is a subclass of `int`). -/
def pyNumVal : PyVal → Option Rat
  | PyVal.pyBool b => some (if b then 1 else 0)
  | PyVal.pyInt n => some (n : Rat)
  | PyVal.pyFloat q => some q
  | _ => none

/-- `v > 0` as Python evaluates it: a TypeError (`Except.error`) on
non-numeric values. -/
def pyGtZero (v : PyVal) : Except Unit Bool :=
  match pyNumVal v with
  | some q => Except.ok (decide (0 < q))
  | none => Except.error ()

/-- `str(v)`, to the fidelity needed here (only strings and small integers
are ever rendered by the merge rationale in the claims under study). -/
def pyToStr : PyVal → String
  | PyVal.pyNone => "None"
  | PyVal.pyBool b => if b then "True" else "False"
  | PyVal.pyInt n => toString n
  | PyVal.pyFloat q => toString q
  | PyVal.pyStr s => s
  | PyVal.pyList _ => "[...]"
  | PyVal.pyDict _ => "{...}"

/-! ## RateLimiter (`app/services/rate_limiter.py`)

State: the deque of call timestamps, oldest first.  `datetime` values are
fixed-point with microsecond resolution, so clock readings and their
differences are modelled exactly by `Int` microsecond ticks; the
configured `time_window` (seconds in the source) appears here already
converted to ticks.  `wait_if_needed` reads the clock up to three times:
`t0` on entry, `t1` after the (possible) sleep, `t2` when recording the
call; the code's `time.sleep(sleep_time + 0.1)` is modelled by the
hypothesis `t0 + sleep_time + sleepMargin ≤ t1` wherever a sleep actually
happens. -/

/-- The 0.1-second safety buffer of `time.sleep(sleep_time + 0.1)`, in
microsecond ticks. -/
def sleepMargin : Int := 100000

/-- The timestamp-pruning loop: drop leading timestamps older than
`t - window` (strict comparison, as in the source). -/
def prune (window t : Int) (calls : List Int) : List Int :=
  calls.dropWhile (fun c => decide (c < t - window))

/-- Sleep duration computed by the source when at capacity:
`calls[0] + time_window - now`. -/
def sleepTime (window t0 : Int) (p : List Int) : Int :=
  match p with
  | [] => 0
  | h :: _ => h + window - t0

/-- `RateLimiter.wait_if_needed`, with the three `datetime.now()` readings
(`t0`, `t1`, `t2`) made explicit. -/
def wait_if_needed (maxCalls : Nat) (window : Int) (calls : List Int)
    (t0 t1 t2 : Int) : List Int :=
  let p := prune window t0 calls
  let p2 :=
    if maxCalls ≤ p.length then
      if 0 < sleepTime window t0 p then prune window t1 p else p
    else p
  p2 ++ [t2]

/-- One admission request with its clock readings. -/
structure RLStep where
  t0 : Int
  t1 : Int
  t2 : Int
deriving DecidableEq, Repr

/-- Run a sequence of admission requests from a given state. -/
def runRL (maxCalls : Nat) (window : Int) : List Int → List RLStep → List Int
  | s, [] => s
  | s, st :: rest =>
      runRL maxCalls window (wait_if_needed maxCalls window s st.t0 st.t1 st.t2) rest

/-- The clock constraints that a real single-threaded execution satisfies:
time is monotone across the readings of one call and across calls, and when
the code sleeps, at least `sleep_time + 0.1` seconds elapse. -/
def stepWF (maxCalls : Nat) (window tprev : Int) (s : List Int) (st : RLStep) : Bool :=
  let p := prune window st.t0 s
  decide (tprev ≤ st.t0) && decide (st.t0 ≤ st.t2) &&
  (if maxCalls ≤ p.length ∧ 0 < sleepTime window st.t0 p then
     decide (st.t0 + sleepTime window st.t0 p + sleepMargin ≤ st.t1) && decide (st.t1 ≤ st.t2)
   else true)

/-- The extra hypothesis of the amended claim C9: when the limiter is at
capacity, the surviving oldest timestamp is strictly inside the window
(equivalently the computed sleep time is strictly positive), so the
degenerate "expires exactly now" branch is not taken. -/
def stepNondegenerate (maxCalls : Nat) (window : Int) (s : List Int) (st : RLStep) : Bool :=
  !(decide (maxCalls ≤ (prune window st.t0 s).length)) ||
    decide (0 < sleepTime window st.t0 (prune window st.t0 s))

/-- A well-formed single-threaded monotone-clock trace (source semantics). -/
def validTrace (maxCalls : Nat) (window : Int) : Int → List Int → List RLStep → Bool
  | _, _, [] => true
  | tprev, s, st :: rest =>
      stepWF maxCalls window tprev s st &&
      validTrace maxCalls window st.t2
        (wait_if_needed maxCalls window s st.t0 st.t1 st.t2) rest

/-- A well-formed trace additionally satisfying the amended claim's
non-degeneracy condition at every step. -/
def validTraceND (maxCalls : Nat) (window : Int) : Int → List Int → List RLStep → Bool
  | _, _, [] => true
  | tprev, s, st :: rest =>
      stepWF maxCalls window tprev s st && stepNondegenerate maxCalls window s st &&
      validTraceND maxCalls window st.t2
        (wait_if_needed maxCalls window s st.t0 st.t1 st.t2) rest

/-- Number of recorded timestamps lying within the trailing window at
time `t` (a timestamp aged exactly `window` still counts, matching the
limiter's own strict pruning comparison). -/
def inWindowCount (window t : Int) (s : List Int) : Nat :=
  (s.filter (fun c => decide (t - window ≤ c))).length

/-- The clock value at which the last call of a trace returned. -/
def traceEnd (tstart : Int) (steps : List RLStep) : Int :=
  match steps.getLast? with
  | some st => st.t2
  | none => tstart

/-- The state invariant of the limiter at time `t`: timestamps are in
recording order (sorted), none is in the future, and at most `maxCalls` of
them lie within the trailing window. -/
def RLInv (maxCalls : Nat) (window t : Int) (s : List Int) : Prop :=
  List.Sorted (· ≤ ·) s ∧ (∀ c ∈ s, c ≤ t) ∧ inWindowCount window t s ≤ maxCalls

/-! ## Structural equality of values (Python `==` / `!=`) -/

mutual

/-- Structural equality on `PyVal`. -/
def pvEq : PyVal → PyVal → Bool
  | PyVal.pyNone, PyVal.pyNone => true
  | PyVal.pyBool a, PyVal.pyBool b => a = b
  | PyVal.pyInt a, PyVal.pyInt b => a = b
  | PyVal.pyFloat a, PyVal.pyFloat b => a = b
  | PyVal.pyStr a, PyVal.pyStr b => a = b
  | PyVal.pyList a, PyVal.pyList b => pvEqList a b
  | PyVal.pyDict a, PyVal.pyDict b => pvEqEntries a b
  | _, _ => false

def pvEqList : List PyVal → List PyVal → Bool
  | [], [] => true
  | a :: as, b :: bs => pvEq a b && pvEqList as bs
  | _, _ => false

def pvEqEntries : List (String × PyVal) → List (String × PyVal) → Bool
  | [], [] => true
  | (ka, va) :: as, (kb, vb) :: bs => (ka = kb : Bool) && pvEq va vb && pvEqEntries as bs
  | _, _ => false

end

/-- Python `!=`: numbers (including `bool`) compare by value across types,
everything else structurally. -/
def pyNe (a b : PyVal) : Bool :=
  match pyNumVal a, pyNumVal b with
  | some x, some y => x ≠ y
  | _, _ => !(pvEq a b)

/-! ## Debate-result merging (`_merge_debate_results`, `_merge_2step_results`)

Each step result is a Python dict.  `x.get("evaluation_scores", {})`
followed by `.keys()` / `.get(...)` raises on a non-dict value, modelled
by `Except.error ()`. -/

/-- Extract the `evaluation_scores` sub-dict of a step result. -/
def scoresOfE (d : PyDict) : Except Unit PyDict :=
  match dget d "evaluation_scores" with
  | none => Except.ok []
  | some (PyVal.pyDict es) => Except.ok es
  | some _ => Except.error ()

/-- `scores.get(criterion, {})` followed by
`obj.get("score", 0) if isinstance(obj, dict) else 0`. -/
def stepScoreVal (scores : PyDict) (k : String) : PyVal :=
  match dget scores k with
  | some (PyVal.pyDict es) => dgetD es "score" (PyVal.pyInt 0)
  | some _ => PyVal.pyInt 0
  | none => PyVal.pyInt 0

/-- Same for `obj.get("rationale", "")`. -/
def stepRatVal (scores : PyDict) (k : String) : PyVal :=
  match dget scores k with
  | some (PyVal.pyDict es) => dgetD es "rationale" (PyVal.pyStr "")
  | some _ => PyVal.pyStr ""
  | none => PyVal.pyStr ""

/-- The merged score prescribed by the source for one criterion in the
three-way merge: the final score if `> 0`, else the initial score if `> 0`,
else the neutral default 3.  (Boolean rendering of line 1536; coincides
with the code whenever the `> 0` comparisons do not raise.) -/
def mergeRuleScore (sa sf : PyDict) (k : String) : PyVal :=
  let vA := stepScoreVal sa k
  let vF := stepScoreVal sf k
  if (pyGtZero vF).toOption = some true then vF
  else if (pyGtZero vA).toOption = some true then vA
  else PyVal.pyInt 3

/-- One merged criterion entry of the three-way merge. -/
def mkMergedEntry (sa sb sf : PyDict) (k : String) : Except Unit PyDict :=
  let vA := stepScoreVal sa k
  let vB := stepScoreVal sb k
  let vF := stepScoreVal sf k
  match pyGtZero vF, pyGtZero vA, pyGtZero vB with
  | Except.ok bF, Except.ok bA, Except.ok bB =>
      let finalScore := if bF then vF else if bA then vA else PyVal.pyInt 3
      let parts :=
        (if bA then ["[Step 1 - LLM A 초기: " ++ pyToStr vA ++ "점]\n" ++ pyToStr (stepRatVal sa k)] else []) ++
        (if bB then ["[Step 2 - LLM B 검토: " ++ pyToStr vB ++ "점]\n" ++ pyToStr (stepRatVal sb k)] else []) ++
        (if bF then ["[Step 3 - LLM A 최종: " ++ pyToStr vF ++ "점]\n" ++ pyToStr (stepRatVal sf k)] else [])
      let combined := if parts.isEmpty then "평가 점수를 산출할 수 없습니다." else String.intercalate "\n\n" parts
      Except.ok [("score", finalScore), ("rationale", PyVal.pyStr combined),
                 ("score_a_initial", vA), ("score_b_review", vB), ("score_a_final", vF)]
  | _, _, _ => Except.error ()

/-- The loop over `all_criteria` that fills `merged["evaluation_scores"]`. -/
def buildMergedScores (sa sb sf : PyDict) : List String → Except Unit PyDict
  | [] => Except.ok []
  | k :: rest =>
      match mkMergedEntry sa sb sf k, buildMergedScores sa sb sf rest with
      | Except.ok e, Except.ok tail => Except.ok ((k, PyVal.pyDict e) :: tail)
      | _, _ => Except.error ()

/-- `set(a.keys()) | set(b.keys()) | set(f.keys())`; Python set iteration
order is unspecified, we fix first-appearance order (the claims only look
keys up, never at their order). -/
def unionKeys (sa sb sf : PyDict) : List String :=
  ((sa.map Prod.fst) ++ (sb.map Prod.fst) ++ (sf.map Prod.fst)).dedup

/-- One merged criterion entry of the two-step fallback merge. -/
def mk2StepEntry (sa sb : PyDict) (k : String) : Except Unit PyDict :=
  let vA := stepScoreVal sa k
  let vB := stepScoreVal sb k
  match pyGtZero vA, pyGtZero vB with
  | Except.ok bA, Except.ok bB =>
      let rAv := stepRatVal sa k
      let rBv := stepRatVal sb k
      let finalScore := if bB then vB else if bA then vA else PyVal.pyInt 3
      let combined :=
        if bA && bB && pyNe vA vB then
          PyVal.pyStr ("[LLM A 초기: " ++ pyToStr vA ++ "점]\n" ++ pyToStr rAv ++
            "\n\n[LLM B 검토: " ++ pyToStr vB ++ "점]\n" ++ pyToStr rBv)
        else if bB then
          PyVal.pyStr ("[합의: " ++ pyToStr vB ++ "점]\n" ++ pyToStr rBv)
        else rAv
      Except.ok [("score", finalScore), ("rationale", combined), ("score_a", vA), ("score_b", vB)]
  | _, _ => Except.error ()

def build2StepScores (sa sb : PyDict) : List String → Except Unit PyDict
  | [] => Except.ok []
  | k :: rest =>
      match mk2StepEntry sa sb k, build2StepScores sa sb rest with
      | Except.ok e, Except.ok tail => Except.ok ((k, PyVal.pyDict e) :: tail)
      | _, _ => Except.error ()

def unionKeys2 (sa sb : PyDict) : List String :=
  ((sa.map Prod.fst) ++ (sb.map Prod.fst)).dedup

/-- `_merge_2step_results` (two-step fallback: reviewer's value wins). -/
def _merge_2step_results (a b : PyDict) : Except Unit PyDict :=
  match scoresOfE a, scoresOfE b with
  | Except.ok sa, Except.ok sb =>
      match build2StepScores sa sb (unionKeys2 sa sb) with
      | Except.ok merged =>
          Except.ok
            [("ai_category", dgetD b "ai_category" (dgetD a "ai_category" (PyVal.pyStr "분류"))),
             ("business_impact", dgetD b "business_impact" (dgetD a "business_impact" (PyVal.pyStr ""))),
             ("technical_feasibility", dgetD b "technical_feasibility" (dgetD a "technical_feasibility" (PyVal.pyStr ""))),
             ("five_line_summary", dgetD b "five_line_summary" (dgetD a "five_line_summary" (PyVal.pyList []))),
             ("debate_summary", dgetD b "debate_summary" (PyVal.pyStr "")),
             ("evaluation_scores", PyVal.pyDict merged)]
      | Except.error e => Except.error e
  | _, _ => Except.error ()

/-- Truthiness of optional dicts, as in `if result_a_final:` (both `None`
and the empty dict are falsy). -/
def optTruthy : Option PyDict → Bool
  | none => false
  | some d => !d.isEmpty

def orEmptyDict : Option PyDict → PyDict
  | none => []
  | some d => d

/-- The `evaluation_scores` sub-dict of the optional reviewer result
(`result_b_review.get("evaluation_scores", {}) if result_b_review else {}`). -/
def scoresOfB (b : Option PyDict) : Except Unit PyDict :=
  match b with
  | some bd => scoresOfE bd
  | none => Except.ok []

/-- `_merge_debate_results`: the three-way merge when a final result is
truthy, else the two-step fallback when a review result is truthy, else
INITIAL_A's result verbatim. -/
def _merge_debate_results (a : PyDict) (b : Option PyDict) (f : Option PyDict) :
    Except Unit PyDict :=
  if optTruthy f then
    let fd := orEmptyDict f
    match scoresOfE a, scoresOfB b, scoresOfE fd with
    | Except.ok sa, Except.ok sb, Except.ok sf =>
        (match buildMergedScores sa sb sf (unionKeys sa sb sf) with
         | Except.ok merged =>
             Except.ok
               [("ai_category", dgetD fd "ai_category" (dgetD a "ai_category" (PyVal.pyStr "분류"))),
                ("business_impact", dgetD fd "business_impact" (dgetD a "business_impact" (PyVal.pyStr ""))),
                ("technical_feasibility", dgetD fd "technical_feasibility" (dgetD a "technical_feasibility" (PyVal.pyStr ""))),
                ("five_line_summary", dgetD fd "five_line_summary" (dgetD a "five_line_summary" (PyVal.pyList []))),
                ("debate_summary", dgetD fd "final_decision"
                   (match b with | some bd => dgetD bd "debate_summary" (PyVal.pyStr "") | none => PyVal.pyStr "")),
                ("evaluation_scores", PyVal.pyDict merged)]
         | Except.error e => Except.error e)
    | _, _, _ => Except.error ()
  else if optTruthy b then _merge_2step_results a (orEmptyDict b)
  else Except.ok a

/-! ## Orchestrator control-flow skeleton (`evaluate_with_multiturn_debate`)

The three LLM round-trips (invoke + JSON recovery) are abstracted into an
oracle giving each step's outcome; what is modelled exactly is the
exception flow of the source: step 1 raises through, steps 2 and 3 sit in
one `try` whose `except Exception` handler swallows the failure. -/

structure DebateOracle where
  initialA : Except Unit PyDict
  reviewB : Except Unit PyDict
  finalA : Except Unit PyDict

/-- Control-flow skeleton of `evaluate_with_multiturn_debate`: returns the
triple `(result_a_initial, result_b_review, result_a_final)`. -/
def evaluate_with_multiturn_debate (hasLLMB : Bool) (o : DebateOracle) :
    Except Unit (PyDict × Option PyDict × Option PyDict) :=
  match o.initialA with
  | Except.error e => Except.error e
  | Except.ok a =>
      if hasLLMB then
        match o.reviewB with
        | Except.error _ => Except.ok (a, none, none)
        | Except.ok b =>
          match o.finalA with
          | Except.error _ => Except.ok (a, some b, none)
          | Except.ok f => Except.ok (a, some b, some f)
      else Except.ok (a, none, none)

/-- Debate mode of `evaluate_application`: run the three steps, then merge
(the merge happens outside the step-2/3 exception handler). -/
def debateEvaluate (hasLLMB : Bool) (o : DebateOracle) : Except Unit PyDict :=
  match evaluate_with_multiturn_debate hasLLMB o with
  | Except.error e => Except.error e
  | Except.ok r => _merge_debate_results r.1 r.2.1 r.2.2

/-! ## Criteria (`EvaluationCriteria` rows, as used by the engine)

Only the fields the embedded functions read are modelled: `name` and the
(possibly unset) `weight`; `getattr(criterion, "weight", 1.0)` becomes
`weight.getD 1`. -/

structure EvaluationCriteria where
  name : String
  weight : Option Rat
deriving DecidableEq, Repr

/-- The hardcoded Korean-name → key map `self.criteria_key_map`. -/
def criteria_key_map (n : String) : Option String :=
  if n = "혁신성" then some "innovation"
  else if n = "실현가능성" then some "feasibility"
  else if n = "효과성" then some "impact"
  else if n = "명확성" then some "clarity"
  else none

/-- Criterion key as computed in `_validate_evaluation_quality`:
`self.criteria_key_map.get(criterion.name, criterion.name)`. -/
def critKeyV (n : String) : String := (criteria_key_map n).getD n

/-- Criterion key as computed in `calculate_weighted_score`:
`self.criteria_key_map.get(criterion.name, criterion.name.lower())`. -/
def critKeyW (n : String) : String := (criteria_key_map n).getD n.toLower

/-! ## Quality validator (`_validate_evaluation_quality`) -/

def required_fields : List String :=
  ["ai_category", "business_impact", "technical_feasibility",
   "five_line_summary", "evaluation_scores"]

/-- `if field not in result or not result[field]: raise`. -/
def checkRequired (r : PyDict) : List String → Except String Unit
  | [] => Except.ok ()
  | f :: rest =>
      match dget r f with
      | none => Except.error ("Missing or empty required field: " ++ f)
      | some v =>
          if pyTruthy v then checkRequired r rest
          else Except.error ("Missing or empty required field: " ++ f)

/-- `result["ai_category"] not in valid_categories` (list of `str`). -/
def catMember (v : PyVal) (cats : List String) : Bool :=
  match v with
  | PyVal.pyStr s => cats.contains s
  | _ => false

/-- The per-criterion body of the validator's loop. -/
def checkCriterion (scores : PyDict) (c : EvaluationCriteria) : Except String Unit :=
  match dget scores (critKeyV c.name) with
  | none => Except.error ("Missing score for criterion: " ++ critKeyV c.name)
  | some sd =>
      match sd with
      | PyVal.pyDict es =>
          if !(hasKey es "score") || !(hasKey es "rationale") then
            Except.error ("Score data for " ++ critKeyV c.name ++ " missing score or rationale")
          else
            match pyNumVal (dgetD es "score" PyVal.pyNone) with
            | none => Except.error ("Score for " ++ critKeyV c.name ++ " must be between 1 and 5")
            | some q =>
                if !(decide (1 ≤ q) && decide (q ≤ 5)) then
                  Except.error ("Score for " ++ critKeyV c.name ++ " must be between 1 and 5")
                else
                  match dgetD es "rationale" PyVal.pyNone with
                  | PyVal.pyStr s =>
                      if s.length < 10 then
                        Except.error ("Rationale for " ++ critKeyV c.name ++
                          " must be a string with at least 10 characters")
                      else Except.ok ()
                  | _ => Except.error ("Rationale for " ++ critKeyV c.name ++
                      " must be a string with at least 10 characters")
      | _ => Except.error ("Score data for " ++ critKeyV c.name ++ " must be a dictionary")

def checkCriteria (scores : PyDict) : List EvaluationCriteria → Except String Unit
  | [] => Except.ok ()
  | c :: rest =>
      match checkCriterion scores c with
      | Except.ok _ => checkCriteria scores rest
      | Except.error e => Except.error e

/-- `_validate_evaluation_quality`: required fields, category membership,
five-line summary shape, `evaluation_scores` dict shape, then each
criterion; first violation raises `EvaluationQualityError`. -/
def _validate_evaluation_quality (r : PyDict) (cl : List EvaluationCriteria)
    (validCategories : List String) : Except String Unit :=
  match checkRequired r required_fields with
  | Except.error e => Except.error e
  | Except.ok _ =>
      if !(catMember (dgetD r "ai_category" PyVal.pyNone) validCategories) then
        Except.error "Invalid AI category"
      else
        match dgetD r "five_line_summary" PyVal.pyNone with
        | PyVal.pyList xs =>
            if xs.length = 5 then
              match dgetD r "evaluation_scores" PyVal.pyNone with
              | PyVal.pyDict es => checkCriteria es cl
              | _ => Except.error "evaluation_scores must be a dictionary"
            else Except.error "five_line_summary must be a list of 5 items"
        | _ => Except.error "five_line_summary must be a list of 5 items"

/-- The advisory use of the validator in `evaluate_application`
(lines 1742–1747): the `EvaluationQualityError` is caught and the result is
used unchanged. -/
def advisory_quality_gate (r : PyDict) (cl : List EvaluationCriteria)
    (validCategories : List String) : PyDict :=
  match _validate_evaluation_quality r cl validCategories with
  | Except.ok _ => r
  | Except.error _ => r

/-- The entries of `result["evaluation_scores"]` if that value is a dict,
else no entries (used to state the amended claim C5). -/
def scoreEntriesOf (r : PyDict) : PyDict :=
  match dget r "evaluation_scores" with
  | some (PyVal.pyDict es) => es
  | _ => []

/-- The amended C5 violation condition for one criterion: its key is
missing from the score map, or the entry is not a dict carrying a numeric
(`int`/`float`) score in [1,5] and a string rationale of length ≥ 10. -/
def critViolation (scores : PyDict) (c : EvaluationCriteria) : Bool :=
  match dget scores (critKeyV c.name) with
  | none => true
  | some sd =>
      match sd with
      | PyVal.pyDict es =>
          !(hasKey es "score" && hasKey es "rationale" &&
            (match pyNumVal (dgetD es "score" PyVal.pyNone) with
             | some q => decide (1 ≤ q) && decide (q ≤ 5)
             | none => false) &&
            (match dgetD es "rationale" PyVal.pyNone with
             | PyVal.pyStr s => decide (10 ≤ s.length)
             | _ => false))
      | _ => true

/-- `isinstance(v, int)` ignoring the `bool` subtlety: exactly the `int`
values (used to state that 3.5 is not an integer). -/
def pvIsInt : PyVal → Bool
  | PyVal.pyInt _ => true
  | _ => false

/-! ## Weighted scoring (`calculate_weighted_score`) -/

/-- The score value a criterion contributes, if it is matched: its key is
present in `evaluation_scores`, the entry is a dict, and it has a `score`
field (the source's membership and `isinstance` guards). -/
def wsDatum (scores : PyDict) (c : EvaluationCriteria) : Option PyVal :=
  match dget scores (critKeyW c.name) with
  | some (PyVal.pyDict es) =>
      if hasKey es "score" then some (dgetD es "score" PyVal.pyNone) else none
  | _ => none

def critWeight (c : EvaluationCriteria) : Rat := c.weight.getD 1

/-- A matched criterion whose score value is not numeric makes
`score * weight` raise a TypeError. -/
def wsBad (scores : PyDict) (c : EvaluationCriteria) : Bool :=
  match wsDatum scores c with
  | some sv => (pyNumVal sv).isNone
  | none => false

/-- The `(score * weight, weight)` contribution of a matched criterion. -/
def wsTerm (scores : PyDict) (c : EvaluationCriteria) : Option (Rat × Rat) :=
  match wsDatum scores c with
  | some sv => (pyNumVal sv).map (fun q => (q * critWeight c, critWeight c))
  | none => none

/-- The accumulation loop of `calculate_weighted_score`. -/
def calcWS (scores : PyDict) : List EvaluationCriteria → Rat → Rat → Except Unit Rat
  | [], tws, tw => if tw = 0 then Except.ok 0 else Except.ok (tws / tw)
  | c :: rest, tws, tw =>
      match wsDatum scores c with
      | none => calcWS scores rest tws tw
      | some sv =>
          match pyNumVal sv with
          | none => Except.error ()
          | some q => calcWS scores rest (tws + q * critWeight c) (tw + critWeight c)

/-- `calculate_weighted_score`. -/
def calculate_weighted_score (scores : PyDict) (cl : List EvaluationCriteria) :
    Except Unit Rat :=
  calcWS scores cl 0 0

/-! ## Result-shape normalizer (`_normalize_evaluation_result`) -/

/-- A top-level value that "looks like an evaluation criterion": a dict
containing a `score` field. -/
def isScoreDictB : PyVal → Bool
  | PyVal.pyDict es => hasKey es "score"
  | _ => false

def recognized_other_fields : List String :=
  ["ai_category", "business_impact", "technical_feasibility",
   "five_line_summary", "debate_summary", "final_decision"]

/-- `if key in other_fields: normalized[key] = other_fields[key]` — the
binding contributed for one optional extra field. -/
def optField (d : PyDict) (k : String) : PyDict :=
  match dget d k with
  | some v => [(k, v)]
  | none => []

/-- `_normalize_evaluation_result` (the pure reshaping; the tenacity
`@retry` decorator that the source attaches to this function is modelled
where it matters, in the C4 development below). -/
def _normalize_evaluation_result (r : PyDict) : PyDict :=
  if hasKey r "evaluation_scores" then r
  else
    let scores := r.filter (fun kv => isScoreDictB kv.2)
    let others := r.filter (fun kv => !(isScoreDictB kv.2))
    if scores.isEmpty then r
    else
      [("ai_category", dgetD others "ai_category" (PyVal.pyStr "분류")),
       ("business_impact", dgetD others "business_impact" (PyVal.pyStr "")),
       ("technical_feasibility", dgetD others "technical_feasibility" (PyVal.pyStr "")),
       ("five_line_summary", dgetD others "five_line_summary" (PyVal.pyList [])),
       ("evaluation_scores", PyVal.pyDict scores)] ++
      optField others "debate_summary" ++ optField others "final_decision"

/-- The non-criterion top-level binding of `k`, i.e. `k`'s value unless it
was relocated as a criterion entry (`other_fields` in the source). -/
def nonCriterionField (r : PyDict) (k : String) : Option PyVal :=
  dget (r.filter (fun kv => !(isScoreDictB kv.2))) k

/-! ## Python string machinery, at the `List Char` level -/

def lbraceC : Char := Char.ofNat 123
def rbraceC : Char := Char.ofNat 125
def backtickC : Char := Char.ofNat 96
def dquoteC : Char := Char.ofNat 34

/-- `isPfx s t`: `s` is a prefix of `t`. -/
def isPfx : List Char → List Char → Bool
  | [], _ => true
  | _ :: _, [] => false
  | a :: s, b :: t => a = b && isPfx s t

/-- Split at the leftmost occurrence of `sep` (the scan of `str.split`). -/
def splitFirst (sep : List Char) : List Char → Option (List Char × List Char)
  | [] => if isPfx sep [] then some ([], []) else none
  | x :: xs =>
      if isPfx sep (x :: xs) then some ([], (x :: xs).drop sep.length)
      else (splitFirst sep xs).map (fun p => (x :: p.1, p.2))

/-- Python `sep in text`. -/
def containsSub (sep xs : List Char) : Bool := (splitFirst sep xs).isSome

/-- `str.split(sep)`: all parts, leftmost non-overlapping occurrences. -/
def pySplitAux (sep : List Char) : Nat → List Char → List (List Char)
  | 0, xs => [xs]
  | fuel + 1, xs =>
      match splitFirst sep xs with
      | none => [xs]
      | some (a, b) => a :: pySplitAux sep fuel b

def pySplit (sep xs : List Char) : List (List Char) :=
  pySplitAux sep (xs.length + 1) xs

/-- Python whitespace (`str.strip` default set / regex `\s`, ASCII part). -/
def isPyWs (c : Char) : Bool :=
  c = ' ' || c = '\t' || c = '\n' || c = '\r' || c = Char.ofNat 11 || c = Char.ofNat 12

/-- `str.strip()`. -/
def pyStrip (xs : List Char) : List Char :=
  ((xs.dropWhile isPyWs).reverse.dropWhile isPyWs).reverse

/-- No backtick characters (used to state the amended claim C8: the only
backticks of the text are its fence markers). -/
def noTicks (xs : List Char) : Bool := xs.all (fun c => !(decide (c = backtickC)))

def isDigit (c : Char) : Bool := '0' ≤ c && c ≤ '9'

/-- `text.find(c)`. -/
def idxOfChar (c : Char) (xs : List Char) : Option Nat :=
  List.findIdx? (fun x => x = c) xs

/-- `text.rfind(c)`. -/
def lastIdxOfChar (c : Char) (xs : List Char) : Option Nat :=
  match idxOfChar c xs.reverse with
  | some i => some (xs.length - 1 - i)
  | none => none

/-! ## JSON parsing (model of `json.loads`)

Exact-arithmetic model: integer literals become `pyInt`, fractional or
exponent literals become `pyFloat` with their exact rational value (CPython
rounds them to an IEEE double; every literal appearing in this development
is exactly representable, so the models agree on them).  The non-standard
`NaN`/`Infinity` extensions of CPython are not modelled. -/

def isJsonWs (c : Char) : Bool :=
  c = ' ' || c = '\t' || c = '\n' || c = '\r'

def hexVal (c : Char) : Option Nat :=
  if '0' ≤ c && c ≤ '9' then some (c.toNat - 48)
  else if 'a' ≤ c && c ≤ 'f' then some (c.toNat - 87)
  else if 'A' ≤ c && c ≤ 'F' then some (c.toNat - 55)
  else none

/-- Parse a JSON string body (opening quote already consumed). -/
def jstring (acc : List Char) : List Char → Option (String × List Char)
  | [] => none
  | c :: rest =>
      if c = dquoteC then some (String.mk acc.reverse, rest)
      else if c = '\\' then
        match rest with
        | [] => none
        | e :: r2 =>
            if e = dquoteC then jstring (dquoteC :: acc) r2
            else if e = '\\' then jstring ('\\' :: acc) r2
            else if e = '/' then jstring ('/' :: acc) r2
            else if e = 'b' then jstring (Char.ofNat 8 :: acc) r2
            else if e = 'f' then jstring (Char.ofNat 12 :: acc) r2
            else if e = 'n' then jstring ('\n' :: acc) r2
            else if e = 'r' then jstring ('\r' :: acc) r2
            else if e = 't' then jstring ('\t' :: acc) r2
            else if e = 'u' then
              match r2 with
              | h1 :: h2 :: h3 :: h4 :: r3 =>
                  match hexVal h1, hexVal h2, hexVal h3, hexVal h4 with
                  | some a, some b, some c2, some d =>
                      jstring (Char.ofNat (((a * 16 + b) * 16 + c2) * 16 + d) :: acc) r3
                  | _, _, _, _ => none
              | _ => none
            else none
      else if c.toNat < 32 then none
      else jstring (c :: acc) rest

def digitsVal (ds : List Char) : Int :=
  ds.foldl (fun a c => a * 10 + ((c.toNat : Int) - 48)) 0

/-- Parse a JSON number. -/
def jnumber (cs : List Char) : Option (PyVal × List Char) :=
  let negp := isPfx ['-'] cs
  let r1 := if negp then cs.drop 1 else cs
  let ip := r1.takeWhile isDigit
  let r2 := r1.drop ip.length
  if ip.isEmpty then none
  else if 1 < ip.length && ip.headD '0' = '0' then none
  else
    let hasFrac := isPfx ['.'] r2
    let fp := if hasFrac then (r2.drop 1).takeWhile isDigit else []
    let r3 := if hasFrac then (r2.drop 1).drop fp.length else r2
    if hasFrac && fp.isEmpty then none
    else
      let hasExp := isPfx ['e'] r3 || isPfx ['E'] r3
      let r4 := if hasExp then r3.drop 1 else r3
      let eneg := hasExp && isPfx ['-'] r4
      let epos := hasExp && isPfx ['+'] r4
      let r5 := if eneg || epos then r4.drop 1 else r4
      let ep := if hasExp then r5.takeWhile isDigit else []
      let r6 := if hasExp then r5.drop ep.length else r5
      if hasExp && ep.isEmpty then none
      else
        let mant : Int := digitsVal (ip ++ fp)
        let sgn : Int := if negp then -1 else 1
        let e10 : Int := (if eneg then -(digitsVal ep) else digitsVal ep) - (fp.length : Int)
        if hasFrac || hasExp then
          some (PyVal.pyFloat
            (if 0 ≤ e10 then mkRat (sgn * mant * ((10 ^ e10.toNat : Nat) : Int)) 1
             else mkRat (sgn * mant) (10 ^ (-e10).toNat)), r6)
        else some (PyVal.pyInt (sgn * mant), r2)

/-- `d[k] = v` on a dict that may already contain `k` (position kept). -/
def dictInsert (d : PyDict) (k : String) (v : PyVal) : PyDict :=
  if hasKey d k then d.map (fun kv => if kv.1 = k then (k, v) else kv)
  else d ++ [(k, v)]

mutual

def jval : Nat → List Char → Option (PyVal × List Char)
  | 0, _ => none
  | fuel + 1, cs =>
      let cs1 := cs.dropWhile isJsonWs
      match cs1 with
      | [] => none
      | c :: rest =>
          if c = dquoteC then (jstring [] rest).map (fun p => (PyVal.pyStr p.1, p.2))
          else if c = lbraceC then
            let r1 := rest.dropWhile isJsonWs
            if isPfx [rbraceC] r1 then some (PyVal.pyDict [], r1.drop 1)
            else jmembers fuel [] rest
          else if c = '[' then
            let r1 := rest.dropWhile isJsonWs
            if isPfx [']'] r1 then some (PyVal.pyList [], r1.drop 1)
            else jitems fuel [] rest
          else if isPfx ("true".data) cs1 then some (PyVal.pyBool true, cs1.drop 4)
          else if isPfx ("false".data) cs1 then some (PyVal.pyBool false, cs1.drop 5)
          else if isPfx ("null".data) cs1 then some (PyVal.pyNone, cs1.drop 4)
          else if c = '-' || isDigit c then jnumber cs1
          else none

def jmembers : Nat → PyDict → List Char → Option (PyVal × List Char)
  | 0, _, _ => none
  | fuel + 1, acc, cs =>
      let cs1 := cs.dropWhile isJsonWs
      match cs1 with
      | c :: rest =>
          if c = dquoteC then
            match jstring [] rest with
            | some (k, r2) =>
                let r3 := r2.dropWhile isJsonWs
                if isPfx [':'] r3 then
                  match jval fuel (r3.drop 1) with
                  | some (v, r4) =>
                      let acc2 := dictInsert acc k v
                      let r5 := r4.dropWhile isJsonWs
                      if isPfx [','] r5 then jmembers fuel acc2 (r5.drop 1)
                      else if isPfx [rbraceC] r5 then some (PyVal.pyDict acc2, r5.drop 1)
                      else none
                  | none => none
                else none
            | none => none
          else none
      | [] => none

def jitems : Nat → List PyVal → List Char → Option (PyVal × List Char)
  | 0, _, _ => none
  | fuel + 1, acc, cs =>
      match jval fuel cs with
      | some (v, r1) =>
          let r2 := r1.dropWhile isJsonWs
          if isPfx [','] r2 then jitems fuel (acc ++ [v]) (r2.drop 1)
          else if isPfx [']'] r2 then some (PyVal.pyList (acc ++ [v]), r2.drop 1)
          else none
      | none => none

end

/-- `json.loads` (must consume the whole input). -/
def jsonLoads (s : String) : Option PyVal :=
  match jval (2 * s.data.length + 4) s.data with
  | some (v, rest) => if (rest.dropWhile isJsonWs).isEmpty then some v else none
  | none => none

def jsonLoadsL (cs : List Char) : Option PyVal := jsonLoads (String.mk cs)

/-! ## `_fix_common_json_errors` -/

/-- `re.sub(r',(\s*[}\]])', r'\1', text)`: drop each comma directly
followed by optional whitespace and a closing brace/bracket (leftmost,
non-overlapping, scan resumes after the match). -/
def fixCommasAux : Nat → List Char → List Char
  | 0, xs => xs
  | fuel + 1, xs =>
      match xs with
      | [] => []
      | c :: rest =>
          if c = ',' then
            let w := rest.takeWhile isPyWs
            let r2 := rest.drop w.length
            match r2 with
            | b :: r3 =>
                if b = rbraceC || b = ']' then w ++ (b :: fixCommasAux fuel r3)
                else c :: fixCommasAux fuel rest
            | [] => c :: fixCommasAux fuel rest
          else c :: fixCommasAux fuel rest

/-- Clip to the region from the first `[` brace `]` to the last closing one
(`find('{')` / `rfind('}')` guarded by `end > start`). -/
def clipBraces (xs : List Char) : List Char :=
  match idxOfChar lbraceC xs, lastIdxOfChar rbraceC xs with
  | some s, some e => if s < e then (xs.drop s).take (e - s + 1) else xs
  | _, _ => xs

def _fix_common_json_errors (s : String) : String :=
  String.mk (clipBraces (fixCommasAux s.data.length s.data))

/-! ## `_extract_json_from_text` -/

def fenceJson : List Char := "```json".data
def fence3 : List Char := "```".data

/-- Strategy 1: fenced code blocks. -/
def extractStage1 (cs : List Char) : Option (List Char) :=
  if containsSub fenceJson cs then
    let parts := pySplit fenceJson cs
    if 1 < parts.length then
      some (pyStrip ((pySplit fence3 (parts.getD 1 [])).headD []))
    else none
  else if containsSub fence3 cs then
    let parts := pySplit fence3 cs
    if 1 < parts.length then some (pyStrip (parts.getD 1 []))
    else none
  else none

def nonBrace (c : Char) : Bool := !(c = lbraceC || c = rbraceC)

/-- Greedy matcher for the regex
`\{[^{}]*(?:\{[^{}]*\}[^{}]*)*\}` at the current position (the character
classes exclude braces, so the greedy scan is deterministic and
backtracking can never succeed). -/
def matchBraceAux : Nat → List Char → List Char → Option (List Char × List Char)
  | 0, _, _ => none
  | fuel + 1, acc, cs =>
      match cs with
      | [] => none
      | c :: rest =>
          if c = rbraceC then some (acc ++ [c], rest)
          else if c = lbraceC then
            let s2 := rest.takeWhile nonBrace
            let r3 := rest.drop s2.length
            match r3 with
            | d :: r4 =>
                if d = rbraceC then
                  let s3 := r4.takeWhile nonBrace
                  let r5 := r4.drop s3.length
                  matchBraceAux fuel (acc ++ (c :: s2) ++ (d :: s3)) r5
                else none
            | [] => none
          else none

def matchBrace (cs : List Char) : Option (List Char × List Char) :=
  match cs with
  | c :: rest =>
      if c = lbraceC then
        let s1 := rest.takeWhile nonBrace
        matchBraceAux (cs.length + 1) (c :: s1) (rest.drop s1.length)
      else none
  | [] => none

/-- `re.finditer` over the pattern: leftmost matches, scan resumes after
each match. -/
def braceScan : Nat → List Char → List (List Char)
  | 0, _ => []
  | fuel + 1, cs =>
      match matchBrace cs with
      | some (m, rest) => m :: braceScan fuel rest
      | none =>
          match cs with
          | [] => []
          | _ :: t => braceScan fuel t

/-- Strategy 2: first regex match that `json.loads` accepts. -/
def extractStage2 (cs : List Char) : Option (List Char) :=
  (braceScan (cs.length + 1) cs).find? (fun m => (jsonLoadsL m).isSome)

/-- Strategy 3: first `{` to last `}`. -/
def extractStage3 (cs : List Char) : Option (List Char) :=
  match idxOfChar lbraceC cs, lastIdxOfChar rbraceC cs with
  | some s, some e => if s < e then some ((cs.drop s).take (e - s + 1)) else none
  | _, _ => none

/-- `_extract_json_from_text` (strategy 4 is the stripped raw text). -/
def _extract_json_from_text (text : String) : String :=
  let cs := text.data
  match extractStage1 cs with
  | some r => String.mk r
  | none =>
      match extractStage2 cs with
      | some r => String.mk r
      | none =>
          match extractStage3 cs with
          | some r => String.mk r
          | none => String.mk (pyStrip cs)

/-! ## `evaluate_with_single_llm` and the retry wrapper

The `@retry(stop=stop_after_attempt(3), wait=wait_exponential(...),
retry=retry_if_exception_type(Exception))` decorator of tenacity, value
semantics only (the backoff sleeps do not change results).  In the source
this decorator is attached to `_normalize_evaluation_result` — not to any
function performing an LLM call. -/

def tenacityRetry3 (f : Nat → Except Unit α) : Except Unit α :=
  match f 0 with
  | Except.ok v => Except.ok v
  | Except.error _ =>
      match f 1 with
      | Except.ok v => Except.ok v
      | Except.error _ => f 2

/-- Applying `_normalize_evaluation_result` to whatever `json.loads`
produced: dicts are reshaped; a non-dict makes the Python body raise
(`in`/`.items()` on unsuitable types), except for the containment
curiosities of `in` on strings and lists; the tenacity retry around it
re-raises after three identical failures, so the value semantics of the
wrapped call is unchanged. -/
def normalizeStep : PyVal → Except Unit PyVal
  | PyVal.pyDict es => Except.ok (PyVal.pyDict (_normalize_evaluation_result es))
  | PyVal.pyStr s =>
      if containsSub ("evaluation_scores".data) s.data then Except.ok (PyVal.pyStr s)
      else Except.error ()
  | PyVal.pyList xs =>
      if xs.any (fun v => pvEq v (PyVal.pyStr "evaluation_scores")) then
        Except.ok (PyVal.pyList xs)
      else Except.error ()
  | _ => Except.error ()

/-- `evaluate_with_single_llm`, given the outcome of its single
`llm.invoke` round-trip (the response `content` on success). The rate
limiter admission and token logging do not affect the returned value.
Note the function performs exactly one invocation and one
extract/parse/repair pass: no retry wraps it in the source. -/
def evaluate_with_single_llm (invokeOutcome : Except Unit String) : Except Unit PyVal :=
  match invokeOutcome with
  | Except.error e => Except.error e
  | Except.ok content =>
      let jsonText := _extract_json_from_text content
      match jsonLoads jsonText with
      | some result => normalizeStep result
      | none =>
          match jsonLoads (_fix_common_json_errors jsonText) with
          | some result => normalizeStep result
          | none => Except.error ()

/-- Modelled from the spec: the behaviour claim C4 ascribes to the code —
every LLM call wrapped in the bounded 3-attempt retry (`invoke n` is the
outcome of the n-th attempt).  Stated for comparison with
`evaluate_with_single_llm`, which the source does not wrap. -/
def spec_retry_wrapped_call (invoke : Nat → Except Unit String) : Except Unit PyVal :=
  tenacityRetry3 (fun n => evaluate_with_single_llm (invoke n))

/-! ## Concrete sample data for witnesses and counterexamples -/

/-- A well-formed initial result of backend A. -/
def sampleA : PyDict :=
  [("ai_category", PyVal.pyStr "예측"),
   ("business_impact", PyVal.pyStr "효과 설명"),
   ("technical_feasibility", PyVal.pyStr "구현 가능"),
   ("five_line_summary", PyVal.pyList
     [PyVal.pyStr "1", PyVal.pyStr "2", PyVal.pyStr "3", PyVal.pyStr "4", PyVal.pyStr "5"]),
   ("evaluation_scores", PyVal.pyDict
     [("innovation", PyVal.pyDict [("score", PyVal.pyInt 2), ("rationale", PyVal.pyStr "초기 평가 근거")])])]

/-- A reviewer (backend B) result. -/
def sampleB : PyDict :=
  [("ai_category", PyVal.pyStr "분류"),
   ("debate_summary", PyVal.pyStr "검토 의견"),
   ("evaluation_scores", PyVal.pyDict
     [("innovation", PyVal.pyDict [("score", PyVal.pyInt 4), ("rationale", PyVal.pyStr "검토 평가 근거")])])]

/-- A final-synthesis (backend A, step 3) result. -/
def sampleF : PyDict :=
  [("ai_category", PyVal.pyStr "예측"),
   ("final_decision", PyVal.pyStr "최종 결정"),
   ("evaluation_scores", PyVal.pyDict
     [("innovation", PyVal.pyDict [("score", PyVal.pyInt 5), ("rationale", PyVal.pyStr "최종 평가 근거")])])]

/-- Oracle: all three steps succeed. -/
def oracleAllOk : DebateOracle := ⟨Except.ok sampleA, Except.ok sampleB, Except.ok sampleF⟩

/-- Oracle: the FINAL_A step raises (after steps 1 and 2 succeeded). -/
def oracleFinalFails : DebateOracle := ⟨Except.ok sampleA, Except.ok sampleB, Except.error ()⟩

/-- Oracle: the REVIEW_B step raises. -/
def oracleReviewFails : DebateOracle := ⟨Except.ok sampleA, Except.error (), Except.ok sampleF⟩

/-- The criterion 혁신성 (innovation), weight 1. -/
def critInnovation : EvaluationCriteria := ⟨"혁신성", some 1⟩

/-- The criterion 실현가능성 (feasibility), weight 3. -/
def critFeasibility : EvaluationCriteria := ⟨"실현가능성", some 3⟩

/-- A normalized result whose `innovation` score is the float 3.5: in
range, but not an integer. -/
def floatScoreResult : PyDict :=
  [("ai_category", PyVal.pyStr "예측"),
   ("business_impact", PyVal.pyStr "x"),
   ("technical_feasibility", PyVal.pyStr "y"),
   ("five_line_summary", PyVal.pyList
     [PyVal.pyStr "1", PyVal.pyStr "2", PyVal.pyStr "3", PyVal.pyStr "4", PyVal.pyStr "5"]),
   ("evaluation_scores", PyVal.pyDict
     [("innovation", PyVal.pyDict
       [("score", PyVal.pyFloat (mkRat 7 2)), ("rationale", PyVal.pyStr "충분한 근거가 있는 설명입니다")])])]

/-- Same result but with the out-of-range score 6. -/
def sixScoreResult : PyDict :=
  [("ai_category", PyVal.pyStr "예측"),
   ("business_impact", PyVal.pyStr "x"),
   ("technical_feasibility", PyVal.pyStr "y"),
   ("five_line_summary", PyVal.pyList
     [PyVal.pyStr "1", PyVal.pyStr "2", PyVal.pyStr "3", PyVal.pyStr "4", PyVal.pyStr "5"]),
   ("evaluation_scores", PyVal.pyDict
     [("innovation", PyVal.pyDict
       [("score", PyVal.pyInt 6), ("rationale", PyVal.pyStr "충분한 근거가 있는 설명입니다")])])]

/-- A score map for the weighted-score witness: innovation 4, feasibility 2. -/
def wsSampleScores : PyDict :=
  [("innovation", PyVal.pyDict [("score", PyVal.pyInt 4), ("rationale", PyVal.pyStr "근거")]),
   ("feasibility", PyVal.pyDict [("score", PyVal.pyInt 2), ("rationale", PyVal.pyStr "근거")])]

/-- A reviewer response that forgot the `evaluation_scores` wrapper. -/
def flatReviewerResult : PyDict :=
  [("혁신성", PyVal.pyDict [("score", PyVal.pyInt 3), ("rationale", PyVal.pyStr "평가")]),
   ("ai_category", PyVal.pyStr "분류"),
   ("stray_field", PyVal.pyInt 7),
   ("debate_summary", PyVal.pyStr "의견")]

/-- The boundary-degenerate rate-limiter trace of the C9 counterexample
(ticks are microseconds, `time_window` is 10 s = 10000000): two calls at
t = 0, then three back-to-back calls at t = 10 s, the moment the first two
timestamps are exactly `time_window` old. -/
def cxTrace : List RLStep :=
  [⟨0, 0, 0⟩, ⟨0, 0, 0⟩, ⟨10000000, 10000000, 10000000⟩,
   ⟨10000000, 10000000, 10000000⟩, ⟨10000000, 10000000, 10000000⟩]

/-- A non-degenerate trace: calls at t = 0 s, 1 s, 2 s; the third is at
capacity, sleeps 8 + 0.1 seconds and records at t = 10.1 s. -/
def ndTrace : List RLStep :=
  [⟨0, 0, 0⟩, ⟨1000000, 1000000, 1000000⟩, ⟨2000000, 10100000, 10100000⟩]

/-- The `evaluation_scores` entries of `sampleA`. -/
def sampleAScores : PyDict :=
  [("innovation", PyVal.pyDict [("score", PyVal.pyInt 2), ("rationale", PyVal.pyStr "초기 평가 근거")])]

/-- The `evaluation_scores` entries of `sampleB`. -/
def sampleBScores : PyDict :=
  [("innovation", PyVal.pyDict [("score", PyVal.pyInt 4), ("rationale", PyVal.pyStr "검토 평가 근거")])]

/-- The `evaluation_scores` entries of `sampleF`. -/
def sampleFScores : PyDict :=
  [("innovation", PyVal.pyDict [("score", PyVal.pyInt 5), ("rationale", PyVal.pyStr "최종 평가 근거")])]

/-- The concrete three-way merge of the samples. -/
def sampleMerged : PyDict :=
  (_merge_debate_results sampleA (some sampleB) (some sampleF)).toOption.getD []

/-- A well-formed LLM response body. -/
def goodContent : String := "\x7b\"ai_category\": \"분류\"\x7d"

/-- A response that is not JSON, before or after repair. -/
def badContent : String := "not valid json at all"

/-- An LLM whose invocation raises on the first attempt (transient network
error) and would succeed on any retry. -/
def flakyInvoke : Nat → Except Unit String := fun n =>
  if n = 0 then Except.error () else Except.ok goodContent

/-- An LLM whose first response is malformed JSON (parse failure even after
repair) and whose retries would return well-formed JSON. -/
def flakyParse : Nat → Except Unit String := fun n =>
  if n = 0 then Except.ok badContent else Except.ok goodContent

/-! # Theorems

First a toolkit of association-list lemmas, then one theorem per claim. -/

theorem dget_cons_eq (k : String) (v : PyVal) (d : PyDict) :
    dget ((k, v) :: d) k = some v := by
  simp [dget, List.find?]

theorem dget_cons_ne (k k' : String) (v : PyVal) (d : PyDict) (h : k' ≠ k) :
    dget ((k', v) :: d) k = dget d k := by
  simp [dget, List.find?, h]

theorem dget_append_some {d1 : PyDict} {k : String} {v : PyVal} (d2 : PyDict)
    (h : dget d1 k = some v) : dget (d1 ++ d2) k = some v := by
  induction d1 with
  | nil => simp [dget] at h
  | cons kv t ih =>
      obtain ⟨k1, v1⟩ := kv
      by_cases hk : k1 = k
      · subst hk
        rw [dget_cons_eq] at h
        simpa [dget_cons_eq] using h
      · rw [dget_cons_ne _ _ _ _ hk] at h
        rw [List.cons_append, dget_cons_ne _ _ _ _ hk]
        exact ih h

theorem dget_append_none {d1 : PyDict} {k : String} (d2 : PyDict)
    (h : dget d1 k = none) : dget (d1 ++ d2) k = dget d2 k := by
  induction d1 with
  | nil => simp
  | cons kv t ih =>
      obtain ⟨k1, v1⟩ := kv
      by_cases hk : k1 = k
      · subst hk; rw [dget_cons_eq] at h; cases h
      · rw [dget_cons_ne _ _ _ _ hk] at h
        rw [List.cons_append, dget_cons_ne _ _ _ _ hk]
        exact ih h

theorem dget_eq_none_of_not_mem {d : PyDict} {k : String}
    (h : k ∉ d.map Prod.fst) : dget d k = none := by
  induction d with
  | nil => rfl
  | cons kv t ih =>
      obtain ⟨k1, v1⟩ := kv
      simp only [List.map_cons, List.mem_cons] at h
      push_neg at h
      rw [dget_cons_ne _ _ _ _ (Ne.symm h.1)]
      exact ih h.2

theorem mem_keys_of_dget_filter {d : PyDict} {p : String × PyVal → Bool} {k : String} :
    k ∈ (d.filter p).map Prod.fst → k ∈ d.map Prod.fst := by
  intro h
  simp only [List.mem_map] at h ⊢
  obtain ⟨kv, hkv, hk⟩ := h
  exact ⟨kv, List.mem_of_mem_filter hkv, hk⟩

/-- Looking a key up in a key-filtered dict, when keys are unique (as they
are in a Python dict). -/
theorem dget_filter_nodup {d : PyDict} (p : String × PyVal → Bool) (k : String)
    (hnd : (d.map Prod.fst).Nodup) :
    dget (d.filter p) k =
      match dget d k with
      | some v => if p (k, v) then some v else none
      | none => none := by
  induction d with
  | nil => rfl
  | cons kv t ih =>
      obtain ⟨k1, v1⟩ := kv
      simp only [List.map_cons, List.nodup_cons] at hnd
      by_cases hk : k1 = k
      · subst hk
        rw [dget_cons_eq]
        by_cases hp : p (k1, v1)
        · simp [List.filter_cons, hp, dget_cons_eq]
        · simp only [List.filter_cons, hp, Bool.false_eq_true, if_neg]
          have : k1 ∉ (t.filter p).map Prod.fst :=
            fun hmem => hnd.1 (mem_keys_of_dget_filter hmem)
          simp [dget_eq_none_of_not_mem this, hp]
      · rw [dget_cons_ne _ _ _ _ hk]
        rw [← ih hnd.2]
        by_cases hp : p (k1, v1) <;>
          simp [List.filter_cons, hp, dget_cons_ne _ _ _ _ hk]

/-! ## Claim C1 — FINAL_A exceptions

The claim says an exception raised during the FINAL_A step is not caught
and aborts the whole evaluation.  In the source, step 3 lives inside the
same `try` block as step 2 (lines 1258–1465), and the handler at line 1466
(`except Exception`) catches failures of either step, logs, and continues
with whatever results exist.  The claim is therefore false: the
counterexample below exhibits a FINAL_A failure after which the
orchestrator returns a degraded (two-step) result instead of failing. -/

/-- C1 counterexample: with backend B configured, steps 1 and 2 succeeding
and FINAL_A raising, `evaluate_with_multiturn_debate` returns normally with
`result_a_final = None` — the evaluation does not fail, contradicting the
claim that FINAL_A exceptions propagate out of the orchestrator. -/
theorem C1_counterexample :
    evaluate_with_multiturn_debate true oracleFinalFails =
      Except.ok (sampleA, some sampleB, none) ∧
    (evaluate_with_multiturn_debate true oracleFinalFails).isOk = true ∧
    (debateEvaluate true oracleFinalFails).isOk = true := by
  refine ⟨rfl, rfl, ?_⟩
  rfl

/-- C1 (amended): an exception during FINAL_A is caught by the step-2/3
handler; the orchestrator returns `(INITIAL_A, REVIEW_B, None)` and the
subsequent merge degrades to the two-step merge of INITIAL_A with REVIEW_B
(or to INITIAL_A alone when REVIEW_B's result is empty); the evaluation
does not abort. -/
theorem C1_amended_proof (o : DebateOracle) (a b : PyDict)
    (ha : o.initialA = Except.ok a) (hb : o.reviewB = Except.ok b)
    (hf : ∃ e, o.finalA = Except.error e) :
    evaluate_with_multiturn_debate true o = Except.ok (a, some b, none) ∧
    debateEvaluate true o = _merge_debate_results a (some b) none ∧
    _merge_debate_results a (some b) none =
      (if b.isEmpty then Except.ok a else _merge_2step_results a b) := by
  obtain ⟨e, hf⟩ := hf
  have h1 : evaluate_with_multiturn_debate true o = Except.ok (a, some b, none) := by
    simp [evaluate_with_multiturn_debate, ha, hb, hf]
  refine ⟨h1, ?_, ?_⟩
  · simp [debateEvaluate, h1]
  · by_cases hbe : b.isEmpty <;>
      simp [_merge_debate_results, optTruthy, orEmptyDict, hbe]

/-- C1 witness: the amended theorem at the concrete failing oracle. -/
theorem C1_witness :
    evaluate_with_multiturn_debate true oracleFinalFails =
      Except.ok (sampleA, some sampleB, none) ∧
    debateEvaluate true oracleFinalFails = _merge_debate_results sampleA (some sampleB) none :=
  ⟨(C1_amended_proof oracleFinalFails sampleA sampleB rfl rfl ⟨(), rfl⟩).1,
   (C1_amended_proof oracleFinalFails sampleA sampleB rfl rfl ⟨(), rfl⟩).2.1⟩

/-! ## Claim C3 — REVIEW_B exceptions degrade to INITIAL_A verbatim -/

/-- C3: if the REVIEW_B step raises any exception, it is caught, FINAL_A is
skipped (step 3 lies after step 2 inside the same `try`), and the merged
final result is INITIAL_A's result object itself — no `score_review` /
`score_final` merge fields are added; the evaluation does not abort. -/
theorem C3_proof (o : DebateOracle) (a : PyDict)
    (ha : o.initialA = Except.ok a) (hb : ∃ e, o.reviewB = Except.error e) :
    evaluate_with_multiturn_debate true o = Except.ok (a, none, none) ∧
    debateEvaluate true o = Except.ok a := by
  obtain ⟨e, hb⟩ := hb
  have h1 : evaluate_with_multiturn_debate true o = Except.ok (a, none, none) := by
    simp [evaluate_with_multiturn_debate, ha, hb]
  refine ⟨h1, ?_⟩
  simp [debateEvaluate, h1, _merge_debate_results, optTruthy]

/-- C3 witness: backend B times out; the result is `sampleA`, verbatim. -/
theorem C3_witness :
    evaluate_with_multiturn_debate true oracleReviewFails = Except.ok (sampleA, none, none) ∧
    debateEvaluate true oracleReviewFails = Except.ok sampleA :=
  C3_proof oracleReviewFails sampleA rfl ⟨(), rfl⟩

/-! ## Claim C4 — the retry wrapper around LLM calls

The claim (and the source's own docstrings, "Raises: Exception: If
evaluation fails after retries") say every LLM call is retried 3 times
with 4–60s exponential backoff, on any exception including parse
failures.  In the source, the only `@retry(stop=stop_after_attempt(3),
wait=wait_exponential(multiplier=1, min=4, max=60), retry=
retry_if_exception_type(Exception))` decorator sits on
`_normalize_evaluation_result` (lines 571–576) — a pure reshaping function
that cannot raise — while `evaluate_with_single_llm` and the step-1/step-3
invocations in `evaluate_with_multiturn_debate` perform exactly one
`invoke` and one extract/parse/repair pass and re-raise immediately.  The
code therefore contradicts its own documentation: a bug, not a spec error. -/

/-- C4: a first-attempt invocation failure (or a first response whose JSON
cannot be repaired) makes the call raise immediately, although the
spec-prescribed retry wrapper around the same attempt sequence would
succeed on the second attempt.  The first and third conjuncts are the
code's actual behaviour; the second and fourth are the claimed behaviour
(`spec_retry_wrapped_call`), which differs. -/
theorem C4_proof :
    evaluate_with_single_llm (flakyInvoke 0) = Except.error () ∧
    spec_retry_wrapped_call flakyInvoke =
      Except.ok (PyVal.pyDict [("ai_category", PyVal.pyStr "분류")]) ∧
    evaluate_with_single_llm (flakyParse 0) = Except.error () ∧
    spec_retry_wrapped_call flakyParse =
      Except.ok (PyVal.pyDict [("ai_category", PyVal.pyStr "분류")]) := by
  refine ⟨rfl, ?_, ?_, ?_⟩ <;> rfl

/-! ## Claim C2 — three-way merge score rule -/

theorem mkMergedEntry_score {sa sb sf : PyDict} {k : String} {e : PyDict}
    (h : mkMergedEntry sa sb sf k = Except.ok e) :
    dget e "score" = some (mergeRuleScore sa sf k) := by
  unfold mkMergedEntry at h
  cases hF : pyGtZero (stepScoreVal sf k) with
  | error e' => simp [hF] at h
  | ok bF =>
    cases hA : pyGtZero (stepScoreVal sa k) with
    | error e' => simp [hF, hA] at h
    | ok bA =>
      cases hB : pyGtZero (stepScoreVal sb k) with
      | error e' => simp [hF, hA, hB] at h
      | ok bB =>
        simp only [hF, hA, hB] at h
        injection h with h2
        subst h2
        rw [dget_cons_eq]
        simp only [mergeRuleScore, hF, hA, Except.toOption]
        cases bF with
        | true => simp
        | false => cases bA <;> simp

theorem buildMergedScores_lookup {sa sb sf : PyDict} {ks : List String} {m : PyDict}
    (h : buildMergedScores sa sb sf ks = Except.ok m) :
    ∀ k ∈ ks, ∃ e, mkMergedEntry sa sb sf k = Except.ok e ∧
      dget m k = some (PyVal.pyDict e) := by
  induction ks generalizing m with
  | nil => intro k hk; cases hk
  | cons k0 rest ih =>
    intro k hk
    unfold buildMergedScores at h
    cases h0 : mkMergedEntry sa sb sf k0 with
    | error e0 => simp [h0] at h
    | ok e0 =>
      cases ht : buildMergedScores sa sb sf rest with
      | error e1 => simp [h0, ht] at h
      | ok tail =>
        simp only [h0, ht] at h
        injection h with h2
        subst h2
        by_cases hkk : k0 = k
        · subst hkk
          exact ⟨e0, h0, dget_cons_eq _ _ _⟩
        · rcases List.mem_cons.mp hk with rfl | hk2
          · exact absurd rfl hkk
          · obtain ⟨e, he, hd⟩ := ih ht k hk2
            exact ⟨e, he, by rw [dget_cons_ne _ _ _ _ hkk]; exact hd⟩

/-- C2: in the three-way merge, for every criterion key (of the union of
the three score maps) the merged `score` equals FINAL_A's score when that
score is `> 0` — regardless of INITIAL_A's and REVIEW_B's values — else
INITIAL_A's score when `> 0`, else the default 3.  `mergeRuleScore` states
exactly that rule and does not depend on the reviewer's scores `sb`. -/
theorem C2_proof (a f : PyDict) (b : Option PyDict) (sa sb sf m : PyDict)
    (hf : f.isEmpty = false)
    (hsa : scoresOfE a = Except.ok sa)
    (hsb : scoresOfB b = Except.ok sb)
    (hsf : scoresOfE f = Except.ok sf)
    (hm : _merge_debate_results a b (some f) = Except.ok m) :
    ∃ es, dget m "evaluation_scores" = some (PyVal.pyDict es) ∧
      ∀ k ∈ unionKeys sa sb sf, ∃ e, dget es k = some (PyVal.pyDict e) ∧
        dget e "score" = some (mergeRuleScore sa sf k) := by
  unfold _merge_debate_results at hm
  simp only [optTruthy, hf, Bool.not_false, if_true, orEmptyDict, hsa, hsb, hsf] at hm
  cases hbm : buildMergedScores sa sb sf (unionKeys sa sb sf) with
  | error e0 => rw [hbm] at hm; cases hm
  | ok merged =>
    rw [hbm] at hm
    injection hm with hm2
    subst hm2
    refine ⟨merged, ?_, ?_⟩
    · rw [dget_cons_ne _ _ _ _ (by decide), dget_cons_ne _ _ _ _ (by decide),
        dget_cons_ne _ _ _ _ (by decide), dget_cons_ne _ _ _ _ (by decide),
        dget_cons_ne _ _ _ _ (by decide), dget_cons_eq]
    · intro k hk
      obtain ⟨e, he, hd⟩ := buildMergedScores_lookup hbm k hk
      exact ⟨e, hd, mkMergedEntry_score he⟩

/-- C2 witness: the merge rule at the concrete sample debate
(initial 2, review 4, final 5 — the merged score is the final 5). -/
theorem C2_witness :
    (∃ es, dget sampleMerged "evaluation_scores" = some (PyVal.pyDict es) ∧
      ∀ k ∈ unionKeys sampleAScores sampleBScores sampleFScores,
        ∃ e, dget es k = some (PyVal.pyDict e) ∧
          dget e "score" = some (mergeRuleScore sampleAScores sampleFScores k)) ∧
    mergeRuleScore sampleAScores sampleFScores "innovation" = PyVal.pyInt 5 :=
  ⟨C2_proof sampleA sampleF (some sampleB) sampleAScores sampleBScores sampleFScores
      sampleMerged rfl rfl rfl rfl rfl,
   rfl⟩

/-! ## Claim C5 — quality validator

The validator accepts any `int` **or `float`** score in [1,5]
(`isinstance(score, (int, float))`, line 202), so a non-integer score such
as 3.5 does not raise, contrary to the claim's "score is not an integer in
[1,5] raises".  Everything else in the claim holds: missing criterion keys,
out-of-range scores (6 in particular) and short or non-string rationales
raise, and the orchestrator treats the check as advisory. -/

theorem checkCriteria_mem {es : PyDict} {cl : List EvaluationCriteria}
    (h : checkCriteria es cl = Except.ok ()) :
    ∀ c ∈ cl, checkCriterion es c = Except.ok () := by
  induction cl with
  | nil => intro c hc; cases hc
  | cons c0 rest ih =>
    intro c hc
    unfold checkCriteria at h
    cases h0 : checkCriterion es c0 with
    | error e => rw [h0] at h; cases h
    | ok u =>
      simp only [h0] at h
      rcases List.mem_cons.mp hc with rfl | hc2
      · cases u; exact h0
      · exact ih h c hc2

theorem checkCriterion_ok_no_violation {es : PyDict} {c : EvaluationCriteria}
    (h : checkCriterion es c = Except.ok ()) : critViolation es c = false := by
  unfold checkCriterion at h
  unfold critViolation
  split at h
  · cases h
  · rename_i sd hd
    split at h
    · rename_i es2
      split at h
      · cases h
      · rename_i hkeys
        split at h
        · cases h
        · rename_i q hq
          split at h
          · cases h
          · rename_i hrange
            split at h
            · rename_i s hs
              split at h
              · cases h
              · rename_i hlen
                have hx := Bool.eq_false_iff.mpr hkeys
                rw [Bool.or_eq_false_iff, Bool.not_eq_false', Bool.not_eq_false'] at hx
                have hy := Bool.eq_false_iff.mpr hrange
                rw [Bool.not_eq_false'] at hy
                have h10 : decide (10 ≤ s.length) = true := by
                  simp only [decide_eq_true_eq]
                  omega
                simp [hq, hs, hx.1, hx.2, hy, h10]
            · cases h
    · cases h

theorem scoreEntriesOf_eq {r : PyDict} {es : PyDict}
    (h : dgetD r "evaluation_scores" PyVal.pyNone = PyVal.pyDict es) :
    scoreEntriesOf r = es := by
  unfold dgetD at h
  unfold scoreEntriesOf
  cases hd : dget r "evaluation_scores" with
  | none => rw [hd] at h; cases h
  | some v => rw [hd] at h; simp at h; rw [h]

theorem validate_ok_criteria {r : PyDict} {cl : List EvaluationCriteria} {cats : List String}
    (h : _validate_evaluation_quality r cl cats = Except.ok ()) :
    checkCriteria (scoreEntriesOf r) cl = Except.ok () := by
  unfold _validate_evaluation_quality at h
  split at h
  · cases h
  · split at h
    · cases h
    · split at h
      · rename_i xs hxs
        split at h
        · split at h
          · rename_i es hes
            rw [scoreEntriesOf_eq hes]
            exact h
          · cases h
        · cases h
      · cases h

/-- The advisory wrapper returns the result in both branches. -/
theorem advisory_gate_id (r : PyDict) (cl : List EvaluationCriteria) (cats : List String) :
    advisory_quality_gate r cl cats = r := by
  unfold advisory_quality_gate
  split <;> rfl

/-- C5 counterexample: a result whose only score is the float 3.5 — not an
integer, inside [1, 5] — passes the validator (`Except.ok`), although the
claim says a non-integer score raises `EvaluationQualityError`. -/
theorem C5_counterexample :
    _validate_evaluation_quality floatScoreResult [critInnovation] ["예측", "분류"] =
      Except.ok () ∧
    dget (scoreEntriesOf floatScoreResult) "innovation" =
      some (PyVal.pyDict [("score", PyVal.pyFloat (mkRat 7 2)),
                          ("rationale", PyVal.pyStr "충분한 근거가 있는 설명입니다")]) ∧
    pvIsInt (PyVal.pyFloat (mkRat 7 2)) = false := by
  refine ⟨rfl, rfl, rfl⟩

/-- C5 (amended): the validator raises whenever an expected criterion key
is missing from `evaluation_scores`, or a present entry's score is not an
`int`-or-`float` value in [1,5] (in particular 6 raises), or its rationale
is not a string of length ≥ 10 (`critViolation` is exactly that
disjunction); and the orchestrator still returns the result unchanged
because the check is advisory. -/
theorem C5_amended_proof (r : PyDict) (cl : List EvaluationCriteria)
    (cats : List String) (c : EvaluationCriteria) (hc : c ∈ cl)
    (hv : critViolation (scoreEntriesOf r) c = true) :
    (_validate_evaluation_quality r cl cats).isOk = false ∧
    advisory_quality_gate r cl cats = r := by
  refine ⟨?_, advisory_gate_id r cl cats⟩
  cases h : _validate_evaluation_quality r cl cats with
  | error e => rfl
  | ok u =>
    exfalso
    cases u
    have h1 := checkCriteria_mem (validate_ok_criteria h) c hc
    have h2 := checkCriterion_ok_no_violation h1
    rw [hv] at h2
    cases h2

/-- C5 witness: score 6 → the validator errors, and the advisory gate in
`evaluate_application` still hands the result on unchanged. -/
theorem C5_witness :
    (_validate_evaluation_quality sixScoreResult [critInnovation] ["예측", "분류"]).isOk = false ∧
    advisory_quality_gate sixScoreResult [critInnovation] ["예측", "분류"] = sixScoreResult :=
  C5_amended_proof sixScoreResult [critInnovation] ["예측", "분류"] critInnovation
    (by simp) (by rfl)

/-! ## Claim C6 — weighted score -/

/-- Closed form of the accumulation loop: an error exactly when some
matched criterion carries a non-numeric score, else the accumulated
weighted sum divided by the accumulated weight (0 if the total weight
vanishes). -/
theorem calcWS_spec (scores : PyDict) (cl : List EvaluationCriteria) (tws tw : Rat) :
    calcWS scores cl tws tw =
      (if cl.any (wsBad scores) then Except.error ()
       else
         if tw + ((cl.filterMap (wsTerm scores)).map Prod.snd).sum = 0 then Except.ok 0
         else Except.ok ((tws + ((cl.filterMap (wsTerm scores)).map Prod.fst).sum) /
           (tw + ((cl.filterMap (wsTerm scores)).map Prod.snd).sum))) := by
  induction cl generalizing tws tw with
  | nil => simp [calcWS]
  | cons c rest ih =>
    cases hd : wsDatum scores c with
    | none =>
      have hb : wsBad scores c = false := by simp [wsBad, hd]
      have ht : wsTerm scores c = none := by simp [wsTerm, hd]
      simp only [calcWS, hd, List.any_cons, hb, Bool.false_or, List.filterMap_cons, ht]
      exact ih tws tw
    | some sv =>
      cases hn : pyNumVal sv with
      | none =>
        have hb : wsBad scores c = true := by simp [wsBad, hd, hn]
        simp [calcWS, hd, hn, List.any_cons, hb]
      | some q =>
        have hb : wsBad scores c = false := by simp [wsBad, hd, hn]
        have ht : wsTerm scores c = some (q * critWeight c, critWeight c) := by
          simp [wsTerm, hd, hn]
        simp only [calcWS, hd, hn]
        rw [ih]
        simp only [List.any_cons, hb, Bool.false_or, List.filterMap_cons, ht,
          List.map_cons, List.sum_cons]
        have e1 : tw + critWeight c + ((rest.filterMap (wsTerm scores)).map Prod.snd).sum =
            tw + (critWeight c + ((rest.filterMap (wsTerm scores)).map Prod.snd).sum) := by
          ring
        have e2 : tws + q * critWeight c + ((rest.filterMap (wsTerm scores)).map Prod.fst).sum =
            tws + (q * critWeight c + ((rest.filterMap (wsTerm scores)).map Prod.fst).sum) := by
          ring
        rw [e1, e2]

/-- C6: `calculate_weighted_score` is invariant under any permutation of
the criteria list; when every matched score is numeric it returns exactly
`Σ(score·weight)/Σ(weight)` over the criteria present in both the score
map and the criteria list (`wsTerm`), and it returns 0 whenever that total
matched weight is 0. -/
theorem C6_proof (scores : PyDict) (cl1 cl2 : List EvaluationCriteria)
    (hperm : cl1.Perm cl2) :
    calculate_weighted_score scores cl1 = calculate_weighted_score scores cl2 ∧
    (cl1.any (wsBad scores) = false →
      calculate_weighted_score scores cl1 =
        (if ((cl1.filterMap (wsTerm scores)).map Prod.snd).sum = 0 then Except.ok 0
         else Except.ok (((cl1.filterMap (wsTerm scores)).map Prod.fst).sum /
           ((cl1.filterMap (wsTerm scores)).map Prod.snd).sum))) ∧
    (cl1.any (wsBad scores) = false →
      ((cl1.filterMap (wsTerm scores)).map Prod.snd).sum = 0 →
      calculate_weighted_score scores cl1 = Except.ok 0) := by
  have hchar : ∀ cl : List EvaluationCriteria,
      calculate_weighted_score scores cl =
        (if cl.any (wsBad scores) then Except.error ()
         else
           if ((cl.filterMap (wsTerm scores)).map Prod.snd).sum = 0 then Except.ok 0
           else Except.ok ((((cl.filterMap (wsTerm scores)).map Prod.fst).sum) /
             (((cl.filterMap (wsTerm scores)).map Prod.snd).sum))) := by
    intro cl
    unfold calculate_weighted_score
    rw [calcWS_spec]
    simp
  refine ⟨?_, ?_, ?_⟩
  · have hany : cl1.any (wsBad scores) = cl2.any (wsBad scores) := by
      cases h1 : cl1.any (wsBad scores) <;> cases h2 : cl2.any (wsBad scores) <;> try rfl
      · rw [List.any_eq_true] at h2
        obtain ⟨x, hx, hpx⟩ := h2
        have h3 := List.any_eq_true.mpr ⟨x, hperm.mem_iff.mpr hx, hpx⟩
        rw [h1] at h3
        cases h3
      · rw [List.any_eq_true] at h1
        obtain ⟨x, hx, hpx⟩ := h1
        have h3 := List.any_eq_true.mpr ⟨x, hperm.mem_iff.mp hx, hpx⟩
        rw [h2] at h3
        cases h3
    have hpt := hperm.filterMap (wsTerm scores)
    have hs1 := ((hpt.map Prod.fst).sum_eq : _)
    have hs2 := ((hpt.map Prod.snd).sum_eq : _)
    rw [hchar cl1, hchar cl2, hany, hs1, hs2]
  · intro hok
    rw [hchar cl1, hok]
    simp
  · intro hok hzero
    rw [hchar cl1, hok, hzero]
    simp

/-- C6 witness: innovation (weight 1, score 4) and feasibility (weight 3,
score 2) in either order. -/
theorem C6_witness :
    calculate_weighted_score wsSampleScores [critInnovation, critFeasibility] =
      calculate_weighted_score wsSampleScores [critFeasibility, critInnovation] ∧
    calculate_weighted_score wsSampleScores [critInnovation, critFeasibility] =
      (if ((([critInnovation, critFeasibility].filterMap (wsTerm wsSampleScores)).map Prod.snd).sum = 0)
       then Except.ok 0
       else Except.ok
         (((([critInnovation, critFeasibility].filterMap (wsTerm wsSampleScores)).map Prod.fst).sum) /
          ((([critInnovation, critFeasibility].filterMap (wsTerm wsSampleScores)).map Prod.snd).sum))) :=
  ⟨(C6_proof wsSampleScores [critInnovation, critFeasibility] [critFeasibility, critInnovation]
      (by decide)).1,
   (C6_proof wsSampleScores [critInnovation, critFeasibility] [critFeasibility, critInnovation]
      (by decide)).2.1 (by decide)⟩

/-! ## Claims C7 and C10 — the result-shape normalizer -/

theorem optField_some {d : PyDict} {k : String} {v : PyVal} (h : dget d k = some v) :
    optField d k = [(k, v)] := by
  unfold optField
  rw [h]

theorem optField_none {d : PyDict} {k : String} (h : dget d k = none) :
    optField d k = [] := by
  unfold optField
  rw [h]

theorem dget_optField_ne (d : PyDict) {k k' : String} (h : k' ≠ k) :
    dget (optField d k') k = none := by
  unfold optField
  cases dget d k' with
  | none => rfl
  | some v => rw [dget_cons_ne _ _ _ _ h]; rfl

/-- The reconstructed shape produced by `_normalize_evaluation_result` when
`evaluation_scores` is absent and at least one criterion-shaped entry
exists. -/
theorem normalize_reconstructed (r : PyDict)
    (hkey : hasKey r "evaluation_scores" = false)
    (hne : (r.filter (fun kv => isScoreDictB kv.2)).isEmpty = false) :
    _normalize_evaluation_result r =
      ("ai_category", dgetD (r.filter (fun kv => !(isScoreDictB kv.2))) "ai_category" (PyVal.pyStr "분류")) ::
      ("business_impact", dgetD (r.filter (fun kv => !(isScoreDictB kv.2))) "business_impact" (PyVal.pyStr "")) ::
      ("technical_feasibility", dgetD (r.filter (fun kv => !(isScoreDictB kv.2))) "technical_feasibility" (PyVal.pyStr "")) ::
      ("five_line_summary", dgetD (r.filter (fun kv => !(isScoreDictB kv.2))) "five_line_summary" (PyVal.pyList [])) ::
      ("evaluation_scores", PyVal.pyDict (r.filter (fun kv => isScoreDictB kv.2))) ::
      (optField (r.filter (fun kv => !(isScoreDictB kv.2))) "debate_summary" ++
       optField (r.filter (fun kv => !(isScoreDictB kv.2))) "final_decision") := by
  unfold _normalize_evaluation_result
  simp only [hkey, Bool.false_eq_true, if_false, hne, List.cons_append, List.nil_append]

/-- C7: on an object with no `evaluation_scores` key — if it has at least
one criterion-shaped top-level value (a dict with a `score` field), the
normalizer relocates exactly those values under a reconstructed
`evaluation_scores`, and every recognized field the object carries as a
non-criterion value is preserved unchanged; if it has no criterion-shaped
value, the object is returned unchanged.  (Keys of a Python dict are
unique, whence the `Nodup` hypothesis.) -/
theorem C7_proof (r : PyDict) (hnd : (r.map Prod.fst).Nodup)
    (hkey : hasKey r "evaluation_scores" = false) :
    ((r.filter (fun kv => isScoreDictB kv.2)).isEmpty = false →
      dget (_normalize_evaluation_result r) "evaluation_scores" =
        some (PyVal.pyDict (r.filter (fun kv => isScoreDictB kv.2))) ∧
      ∀ k ∈ recognized_other_fields, ∀ v, dget r k = some v → isScoreDictB v = false →
        dget (_normalize_evaluation_result r) k = some v) ∧
    ((r.filter (fun kv => isScoreDictB kv.2)).isEmpty = true →
      _normalize_evaluation_result r = r) := by
  constructor
  · intro hne
    rw [normalize_reconstructed r hkey hne]
    constructor
    · rw [dget_cons_ne _ _ _ _ (by decide), dget_cons_ne _ _ _ _ (by decide),
        dget_cons_ne _ _ _ _ (by decide), dget_cons_ne _ _ _ _ (by decide), dget_cons_eq]
    · intro k hk v hv hvs
      have hother : dget (r.filter (fun kv => !(isScoreDictB kv.2))) k = some v := by
        rw [dget_filter_nodup _ _ hnd, hv]
        simp [hvs]
      fin_cases hk
      · rw [dget_cons_eq]
        unfold dgetD
        rw [hother]
        rfl
      · rw [dget_cons_ne _ _ _ _ (by decide), dget_cons_eq]
        unfold dgetD
        rw [hother]
        rfl
      · rw [dget_cons_ne _ _ _ _ (by decide), dget_cons_ne _ _ _ _ (by decide), dget_cons_eq]
        unfold dgetD
        rw [hother]
        rfl
      · rw [dget_cons_ne _ _ _ _ (by decide), dget_cons_ne _ _ _ _ (by decide),
          dget_cons_ne _ _ _ _ (by decide), dget_cons_eq]
        unfold dgetD
        rw [hother]
        rfl
      · rw [dget_cons_ne _ _ _ _ (by decide), dget_cons_ne _ _ _ _ (by decide),
          dget_cons_ne _ _ _ _ (by decide), dget_cons_ne _ _ _ _ (by decide),
          dget_cons_ne _ _ _ _ (by decide)]
        rw [dget_append_some _ (by rw [optField_some hother, dget_cons_eq])]
      · rw [dget_cons_ne _ _ _ _ (by decide), dget_cons_ne _ _ _ _ (by decide),
          dget_cons_ne _ _ _ _ (by decide), dget_cons_ne _ _ _ _ (by decide),
          dget_cons_ne _ _ _ _ (by decide)]
        rw [dget_append_none _ (dget_optField_ne _ (by decide))]
        rw [optField_some hother, dget_cons_eq]
  · intro hemp
    unfold _normalize_evaluation_result
    simp only [hkey, Bool.false_eq_true, if_false, hemp, if_true]

/-- C7 witness: the flat reviewer response is reconstructed; its 혁신성
entry moves under `evaluation_scores` while the carried `ai_category` and
`debate_summary` values survive unchanged. -/
theorem C7_witness :
    dget (_normalize_evaluation_result flatReviewerResult) "evaluation_scores" =
      some (PyVal.pyDict
        [("혁신성", PyVal.pyDict [("score", PyVal.pyInt 3), ("rationale", PyVal.pyStr "평가")])]) ∧
    dget (_normalize_evaluation_result flatReviewerResult) "ai_category" =
      some (PyVal.pyStr "분류") ∧
    dget (_normalize_evaluation_result flatReviewerResult) "debate_summary" =
      some (PyVal.pyStr "의견") := by
  have h := (C7_proof flatReviewerResult (by decide) (by rfl)).1 (by rfl)
  exact ⟨h.1,
    h.2 "ai_category" (by decide) (PyVal.pyStr "분류") (by rfl) (by rfl),
    h.2 "debate_summary" (by decide) (PyVal.pyStr "의견") (by rfl) (by rfl)⟩

/-- C10: in the reconstruction case, the output's key list is exactly the
five canonical keys plus `debate_summary`/`final_decision` when carried as
non-criterion fields of the input; every other non-criterion top-level
field is dropped, and each canonical field not carried by the input gets
its fabricated default (`ai_category` → "분류", `business_impact` and
`technical_feasibility` → "", `five_line_summary` → `[]`). -/
theorem C10_proof (r : PyDict) (_hnd : (r.map Prod.fst).Nodup)
    (hkey : hasKey r "evaluation_scores" = false)
    (hne : (r.filter (fun kv => isScoreDictB kv.2)).isEmpty = false) :
    ((_normalize_evaluation_result r).map Prod.fst =
      ["ai_category", "business_impact", "technical_feasibility",
       "five_line_summary", "evaluation_scores"] ++
      (if (nonCriterionField r "debate_summary").isSome then ["debate_summary"] else []) ++
      (if (nonCriterionField r "final_decision").isSome then ["final_decision"] else [])) ∧
    (∀ k v, dget r k = some v → isScoreDictB v = false → k ∉ recognized_other_fields →
      dget (_normalize_evaluation_result r) k = none) ∧
    (nonCriterionField r "ai_category" = none →
      dget (_normalize_evaluation_result r) "ai_category" = some (PyVal.pyStr "분류")) ∧
    (nonCriterionField r "business_impact" = none →
      dget (_normalize_evaluation_result r) "business_impact" = some (PyVal.pyStr "")) ∧
    (nonCriterionField r "technical_feasibility" = none →
      dget (_normalize_evaluation_result r) "technical_feasibility" = some (PyVal.pyStr "")) ∧
    (nonCriterionField r "five_line_summary" = none →
      dget (_normalize_evaluation_result r) "five_line_summary" = some (PyVal.pyList [])) := by
  rw [normalize_reconstructed r hkey hne]
  refine ⟨?_, ?_, ?_, ?_, ?_, ?_⟩
  · simp only [List.map_cons, List.map_append]
    unfold nonCriterionField
    cases hds : dget (r.filter (fun kv => !(isScoreDictB kv.2))) "debate_summary" <;>
      cases hfd : dget (r.filter (fun kv => !(isScoreDictB kv.2))) "final_decision" <;>
        simp [optField_some, optField_none, hds, hfd]
  · intro k v hv hvs hkrec
    have hkes : k ≠ "evaluation_scores" := by
      intro heq
      subst heq
      have hkey2 : (dget r "evaluation_scores").isSome = false := hkey
      rw [hv] at hkey2
      cases hkey2
    simp only [recognized_other_fields, List.mem_cons, List.not_mem_nil, or_false] at hkrec
    push_neg at hkrec
    obtain ⟨h1, h2, h3, h4, h5, h6⟩ := hkrec
    rw [dget_cons_ne _ _ _ _ (Ne.symm h1), dget_cons_ne _ _ _ _ (Ne.symm h2),
      dget_cons_ne _ _ _ _ (Ne.symm h3), dget_cons_ne _ _ _ _ (Ne.symm h4),
      dget_cons_ne _ _ _ _ (Ne.symm hkes)]
    rw [dget_append_none _ (dget_optField_ne _ (Ne.symm h5))]
    exact dget_optField_ne _ (Ne.symm h6)
  · intro hnone
    rw [dget_cons_eq]
    unfold nonCriterionField at hnone
    unfold dgetD
    rw [hnone]
    rfl
  · intro hnone
    rw [dget_cons_ne _ _ _ _ (by decide), dget_cons_eq]
    unfold nonCriterionField at hnone
    unfold dgetD
    rw [hnone]
    rfl
  · intro hnone
    rw [dget_cons_ne _ _ _ _ (by decide), dget_cons_ne _ _ _ _ (by decide), dget_cons_eq]
    unfold nonCriterionField at hnone
    unfold dgetD
    rw [hnone]
    rfl
  · intro hnone
    rw [dget_cons_ne _ _ _ _ (by decide), dget_cons_ne _ _ _ _ (by decide),
      dget_cons_ne _ _ _ _ (by decide), dget_cons_eq]
    unfold nonCriterionField at hnone
    unfold dgetD
    rw [hnone]
    rfl

/-- C10 witness: the flat reviewer response keeps exactly the five
canonical keys plus the carried `debate_summary`; its `stray_field` is
dropped and the absent `business_impact` becomes the empty string. -/
theorem C10_witness :
    (_normalize_evaluation_result flatReviewerResult).map Prod.fst =
      ["ai_category", "business_impact", "technical_feasibility",
       "five_line_summary", "evaluation_scores"] ++ ["debate_summary"] ++ [] ∧
    dget (_normalize_evaluation_result flatReviewerResult) "stray_field" = none ∧
    dget (_normalize_evaluation_result flatReviewerResult) "business_impact" =
      some (PyVal.pyStr "") := by
  have h := C10_proof flatReviewerResult (by decide) (by rfl) (by rfl)
  refine ⟨?_, ?_, ?_⟩
  · rw [h.1]; rfl
  · exact h.2.1 "stray_field" (PyVal.pyInt 7) (by rfl) (by rfl) (by decide)
  · exact h.2.2.2.1 (by rfl)

/-! ## Claim C8 — the `json`-fence extraction

`_extract_json_from_text` splits on the *first* occurrence of the fence
marker and cuts the part after it at the *next* occurrence of three
backticks; a payload that itself contains three backticks (legal inside a
JSON string) is therefore truncated, refuting the universally quantified
claim.  When the only backticks in the text are the fence markers, the
extractor does return exactly the fenced content, stripped. -/

theorem isPfx_append_self (s t : List Char) : isPfx s (s ++ t) = true := by
  induction s with
  | nil => rfl
  | cons a s ih => simp [isPfx, ih]

theorem isPfx_append_both (s a b : List Char) : isPfx (s ++ a) (s ++ b) = isPfx a b := by
  induction s with
  | nil => rfl
  | cons c s ih => simp [isPfx, ih]

theorem isPfx_exists_suffix {s t : List Char} (h : isPfx s t = true) :
    t = s ++ t.drop s.length := by
  induction s generalizing t with
  | nil => simp
  | cons a s ih =>
    cases t with
    | nil => cases h
    | cons b t =>
      simp only [isPfx, Bool.and_eq_true, decide_eq_true_eq] at h
      obtain ⟨rfl, h2⟩ := h
      simpa using ih h2

theorem isPfx_tickhead_noTicks {xs : List Char} (s : List Char)
    (h : noTicks xs = true) : isPfx (backtickC :: s) xs = false := by
  cases xs with
  | nil => rfl
  | cons c t =>
    simp only [noTicks, List.all_cons, Bool.and_eq_true] at h
    have hc : ¬ (backtickC = c) := fun he => by simp [← he] at h
    simp [isPfx, hc]

theorem splitFirst_none_noTicks {xs : List Char} (s : List Char)
    (h : noTicks xs = true) : splitFirst (backtickC :: s) xs = none := by
  induction xs with
  | nil => rfl
  | cons c t ih =>
    have ht : noTicks t = true := by
      simp only [noTicks, List.all_cons, Bool.and_eq_true] at h
      exact h.2
    rw [splitFirst, if_neg (by simp [isPfx_tickhead_noTicks s h]), ih ht]
    rfl

theorem splitFirst_boundary {pre : List Char} (s tail : List Char)
    (hpre : noTicks pre = true) :
    splitFirst (backtickC :: s) (pre ++ (backtickC :: s) ++ tail) = some (pre, tail) := by
  induction pre with
  | nil =>
    rw [List.nil_append, List.cons_append, splitFirst,
      if_pos (by rw [← List.cons_append]; exact isPfx_append_self _ _)]
    rw [← List.cons_append, List.drop_left]
  | cons c p ih =>
    simp only [noTicks, List.all_cons, Bool.and_eq_true] at hpre
    have hc : ¬ (backtickC = c) := fun he => by simp [← he] at hpre
    rw [List.cons_append, List.cons_append, splitFirst, if_neg (by simp [isPfx, hc])]
    rw [ih (by simp [noTicks, hpre.2])]
    rfl

theorem splitFirst_fence_mid {payload post : List Char}
    (hpay : noTicks payload = true) (hpost : noTicks post = true)
    (hjson : isPfx ("json".data) post = false) :
    splitFirst fenceJson (payload ++ fence3 ++ post) = none := by
  induction payload with
  | nil =>
    have h1 : isPfx fenceJson (backtickC :: backtickC :: backtickC :: post) = false := by
      show isPfx (fence3 ++ "json".data) (fence3 ++ post) = false
      rw [isPfx_append_both]
      exact hjson
    have h2 : isPfx fenceJson (backtickC :: backtickC :: post) = false := by
      have e : fenceJson = backtickC :: backtickC :: (backtickC :: "json".data) := rfl
      rw [e]
      simp only [isPfx, decide_eq_true_eq]
      rw [isPfx_tickhead_noTicks _ hpost]
      simp
    have h3 : isPfx fenceJson (backtickC :: post) = false := by
      have e : fenceJson = backtickC :: (backtickC :: backtickC :: "json".data) := rfl
      rw [e]
      simp only [isPfx, decide_eq_true_eq]
      rw [isPfx_tickhead_noTicks _ hpost]
      simp
    have hrest : splitFirst fenceJson post = none := by
      have e : fenceJson = backtickC :: (backtickC :: backtickC :: "json".data) := rfl
      rw [e]
      exact splitFirst_none_noTicks _ hpost
    show splitFirst fenceJson (backtickC :: backtickC :: backtickC :: post) = none
    rw [splitFirst, if_neg (by simp [h1])]
    rw [splitFirst, if_neg (by simp [h2])]
    rw [splitFirst, if_neg (by simp [h3])]
    rw [hrest]
    rfl
  | cons c p ih =>
    simp only [noTicks, List.all_cons, Bool.and_eq_true] at hpay
    have hc : ¬ (backtickC = c) := fun he => by simp [← he] at hpay
    have hpfx : isPfx fenceJson (c :: (p ++ fence3 ++ post)) = false := by
      have e : fenceJson = backtickC :: (backtickC :: backtickC :: "json".data) := rfl
      rw [e]
      simp [isPfx, hc]
    show splitFirst fenceJson (c :: (p ++ fence3 ++ post)) = none
    rw [splitFirst, if_neg (by simp [← List.append_assoc, hpfx])]
    rw [ih (by simp [noTicks, hpay.2])]
    rfl

theorem pySplitAux_of_none {sep xs : List Char} (h : splitFirst sep xs = none) :
    ∀ fuel, pySplitAux sep fuel xs = [xs] := by
  intro fuel
  cases fuel with
  | zero => rfl
  | succ n => simp only [pySplitAux, h]

/-- The core of the amended C8: on a text whose only backticks are the
fence markers, strategy 1 returns the stripped fenced payload. -/
theorem extractStage1_fenced (pre payload post : List Char)
    (hpre : noTicks pre = true) (hpay : noTicks payload = true)
    (hpost : noTicks post = true) :
    extractStage1 (pre ++ fenceJson ++ payload ++ fence3 ++ post) =
      some (pyStrip payload) := by
  have efj : fenceJson = backtickC :: (backtickC :: backtickC :: "json".data) := rfl
  have ef3 : fence3 = backtickC :: (backtickC :: [backtickC]) := rfl
  have hsf : splitFirst fenceJson (pre ++ fenceJson ++ (payload ++ fence3 ++ post)) =
      some (pre, payload ++ fence3 ++ post) := by
    rw [efj]
    exact splitFirst_boundary _ _ hpre
  have hassoc : pre ++ fenceJson ++ payload ++ fence3 ++ post =
      pre ++ fenceJson ++ (payload ++ fence3 ++ post) := by
    simp [List.append_assoc]
  rw [hassoc]
  unfold extractStage1
  rw [if_pos (by rw [containsSub, hsf]; rfl)]
  by_cases hjson : isPfx ("json".data) post = true
  · -- a second fence opener starts right after the closing fence
    have hpost2 : post = "json".data ++ post.drop 4 := isPfx_exists_suffix hjson
    have hrest : payload ++ fence3 ++ post = payload ++ fenceJson ++ (post.drop 4) := by
      conv_lhs => rw [hpost2]
      have e : fenceJson = fence3 ++ "json".data := rfl
      rw [e]
      simp [List.append_assoc]
    have hsf2 : splitFirst fenceJson (payload ++ fence3 ++ post) =
        some (payload, post.drop 4) := by
      rw [hrest, efj]
      exact splitFirst_boundary _ _ hpay
    obtain ⟨m, hm⟩ : ∃ m, (pre ++ fenceJson ++ (payload ++ fence3 ++ post)).length = m + 1 := by
      refine ⟨(pre ++ fenceJson ++ (payload ++ fence3 ++ post)).length - 1, ?_⟩
      have h0 : 0 < (pre ++ fenceJson ++ (payload ++ fence3 ++ post)).length := by
        simp [fenceJson, fence3]
      omega
    have hparts : pySplit fenceJson (pre ++ fenceJson ++ (payload ++ fence3 ++ post)) =
        pre :: payload :: pySplitAux fenceJson m (post.drop 4) := by
      simp only [pySplit, pySplitAux, hsf]
      rw [hm]
      simp only [pySplitAux, hsf2]
    rw [hparts]
    rw [if_pos (by simp)]
    have hgd : (pre :: payload :: pySplitAux fenceJson m (post.drop 4)).getD 1 [] =
        payload := rfl
    rw [hgd]
    have hsfp : splitFirst fence3 payload = none := by
      rw [ef3]
      exact splitFirst_none_noTicks _ hpay
    simp only [pySplit]
    rw [pySplitAux_of_none hsfp]
    rfl
  · have hsf2 : splitFirst fenceJson (payload ++ fence3 ++ post) = none :=
      splitFirst_fence_mid hpay hpost (by simpa using hjson)
    have hparts : pySplit fenceJson (pre ++ fenceJson ++ (payload ++ fence3 ++ post)) =
        [pre, payload ++ fence3 ++ post] := by
      simp only [pySplit, pySplitAux, hsf]
      rw [pySplitAux_of_none hsf2]
    rw [hparts]
    have hlen : (1 < ([pre, payload ++ fence3 ++ post] : List (List Char)).length) := by
      simp
    rw [if_pos hlen]
    have hgd : ([pre, payload ++ fence3 ++ post] : List (List Char)).getD 1 [] =
        payload ++ fence3 ++ post := rfl
    rw [hgd]
    have hsf3 : splitFirst fence3 (payload ++ fence3 ++ post) = some (payload, post) := by
      rw [ef3]
      exact splitFirst_boundary _ _ hpay
    simp only [pySplit, pySplitAux, hsf3]
    rfl

/-- C8 counterexample: `\x7b"a": "b```c"\x7d` is legal JSON, here wrapped in a
```json fence; the extractor cuts the fenced part at the three backticks
inside the string literal and returns a strict prefix of the fenced
content — not the fenced content. -/
theorem C8_counterexample :
    _extract_json_from_text "```json\n\x7b\"a\": \"b```c\"\x7d\n```" = "\x7b\"a\": \"b" ∧
    ("\x7b\"a\": \"b" : String) ≠ "\x7b\"a\": \"b```c\"\x7d" := by
  exact ⟨rfl, by decide⟩

/-- C8 (amended): for every text of the form
`pre ++ "```json" ++ payload ++ "```" ++ post` whose only backticks are
the fence markers themselves, the extractor returns exactly the fenced
content with its surrounding whitespace stripped — in particular, no fence
markers. -/
theorem C8_amended_proof (pre payload post : String)
    (hpre : noTicks pre.data = true) (hpay : noTicks payload.data = true)
    (hpost : noTicks post.data = true) :
    _extract_json_from_text (pre ++ "```json" ++ payload ++ "```" ++ post) =
      String.mk (pyStrip payload.data) := by
  have hdata : (pre ++ "```json" ++ payload ++ "```" ++ post).data =
      pre.data ++ fenceJson ++ payload.data ++ fence3 ++ post.data := by
    simp only [String.data_append]
    rfl
  simp only [_extract_json_from_text]
  rw [hdata, extractStage1_fenced _ _ _ hpre hpay hpost]

/-- C8 witness: a fenced payload with prose before and after the fence. -/
theorem C8_witness :
    _extract_json_from_text
        ("Answer:\n" ++ "```json" ++ "\n\x7b\"ok\": \"yes\"\x7d\n" ++ "```" ++ " done") =
      String.mk (pyStrip ("\n\x7b\"ok\": \"yes\"\x7d\n".data)) ∧
    String.mk (pyStrip ("\n\x7b\"ok\": \"yes\"\x7d\n".data)) = "\x7b\"ok\": \"yes\"\x7d" :=
  ⟨C8_amended_proof "Answer:\n" "\n\x7b\"ok\": \"yes\"\x7d\n" " done"
      (by decide) (by decide) (by decide),
   by decide⟩

/-! ## Claim C9 — rate limiter invariant

The pruning comparison is strict (`calls[0] < now - window`) while the
sleep is taken only when `sleep_time > 0`: a call arriving when the oldest
in-window timestamp is *exactly* `time_window` old neither prunes it nor
waits, so back-to-back calls at that instant push the in-window count past
`max_calls` — the counterexample trace below.  Under the amended
non-degeneracy hypothesis the claimed invariant holds. -/

theorem sorted_dropWhile_lt (s : List Int) (b : Int) (hs : List.Sorted (· ≤ ·) s) :
    s.dropWhile (fun c => decide (c < b)) = s.filter (fun c => decide (b ≤ c)) := by
  induction s with
  | nil => rfl
  | cons a t ih =>
    rw [List.sorted_cons] at hs
    by_cases hab : a < b
    · rw [List.dropWhile_cons_of_pos (by simpa using hab),
        List.filter_cons_of_neg (by simpa using not_le.mpr hab)]
      exact ih hs.2
    · rw [List.dropWhile_cons_of_neg (by simpa using hab),
        List.filter_cons_of_pos (by simpa using not_lt.mp hab)]
      congr 1
      symm
      rw [List.filter_eq_self]
      intro c hc
      have := hs.1 c hc
      simp only [decide_eq_true_eq]
      omega

theorem length_filter_mono {p q : Int → Bool} (h : ∀ a, p a = true → q a = true)
    (l : List Int) : (l.filter p).length ≤ (l.filter q).length := by
  induction l with
  | nil => simp
  | cons a t ih =>
    by_cases hp : p a = true
    · rw [List.filter_cons_of_pos hp, List.filter_cons_of_pos (h a hp)]
      simpa using ih
    · rw [List.filter_cons_of_neg (by simpa using hp)]
      by_cases hq : q a = true
      · rw [List.filter_cons_of_pos hq]
        exact le_trans ih (by simp)
      · rw [List.filter_cons_of_neg (by simpa using hq)]
        exact ih

/-- One call preserves the invariant, given the clock well-formedness and
the amended non-degeneracy condition. -/
theorem wait_preserves {mc : Nat} {window tprev t0 t1 t2 : Int} {s : List Int}
    (hmc : 1 ≤ mc) (hw : 0 < window)
    (hInv : RLInv mc window tprev s)
    (hWF : stepWF mc window tprev s ⟨t0, t1, t2⟩ = true)
    (hND : stepNondegenerate mc window s ⟨t0, t1, t2⟩ = true) :
    RLInv mc window t2 (wait_if_needed mc window s t0 t1 t2) := by
  obtain ⟨hsort, hle, hcount⟩ := hInv
  simp only [stepWF, Bool.and_eq_true, decide_eq_true_eq] at hWF
  obtain ⟨⟨h01, h02⟩, hifWF⟩ := hWF
  have hpfilter : prune window t0 s = s.filter (fun c => decide (t0 - window ≤ c)) :=
    sorted_dropWhile_lt s (t0 - window) hsort
  have hplen : (prune window t0 s).length ≤ mc := by
    rw [hpfilter]
    refine le_trans (length_filter_mono (fun a ha => ?_) s) hcount
    simp only [decide_eq_true_eq] at ha ⊢
    omega
  have hpsub : ∀ c ∈ prune window t0 s, c ∈ s :=
    fun c hc => (List.dropWhile_sublist _).subset hc
  have hpsorted : List.Sorted (· ≤ ·) (prune window t0 s) :=
    List.Pairwise.sublist (List.dropWhile_sublist _) hsort
  -- the final state is kept ++ [t2] with kept a sub-sequence of the pruned list
  by_cases hcap : mc ≤ (prune window t0 s).length
  · -- at capacity: the amended hypothesis forces a real sleep
    have hsleep : 0 < sleepTime window t0 (prune window t0 s) := by
      simp only [stepNondegenerate, Bool.or_eq_true, Bool.not_eq_true', decide_eq_true_eq,
        decide_eq_false_iff_not] at hND
      rcases hND with h | h
      · exact absurd hcap h
      · exact h
    have hifWF2 : t0 + sleepTime window t0 (prune window t0 s) + sleepMargin ≤ t1 ∧ t1 ≤ t2 := by
      rw [if_pos ⟨hcap, hsleep⟩] at hifWF
      simpa [Bool.and_eq_true, decide_eq_true_eq] using hifWF
    have hw2 : wait_if_needed mc window s t0 t1 t2 =
        prune window t1 (prune window t0 s) ++ [t2] := by
      simp only [wait_if_needed]
      rw [if_pos hcap, if_pos hsleep]
    cases hp : prune window t0 s with
    | nil => rw [hp] at hcap; simp at hcap; omega
    | cons h p2 =>
      have hsleepval : sleepTime window t0 (prune window t0 s) = h + window - t0 := by
        rw [hp]; rfl
      have hhd : h < t1 - window := by
        have := hifWF2.1
        rw [hsleepval] at this
        have hm : sleepMargin = 100000 := rfl
        omega
      have hdropped : prune window t1 (prune window t0 s) = p2.dropWhile (fun c => decide (c < t1 - window)) := by
        rw [hp]
        unfold prune
        rw [List.dropWhile_cons_of_pos (by simpa using hhd)]
      have hklen : (prune window t1 (prune window t0 s)).length ≤ mc - 1 := by
        rw [hdropped]
        have hlen1 : (p2.dropWhile (fun c => decide (c < t1 - window))).length ≤ p2.length :=
          (List.dropWhile_sublist _).length_le
        have hlen2 : p2.length + 1 ≤ mc := by
          have := hplen
          rw [hp] at this
          simpa using this
        omega
      have hksub : ∀ c ∈ prune window t1 (prune window t0 s), c ∈ s := by
        intro c hc
        exact hpsub c ((List.dropWhile_sublist _).subset hc)
      have hksorted : List.Sorted (· ≤ ·) (prune window t1 (prune window t0 s)) :=
        List.Pairwise.sublist (List.dropWhile_sublist _) hpsorted
      rw [hw2]
      refine ⟨?_, ?_, ?_⟩
      · rw [List.Sorted, List.pairwise_append]
        refine ⟨hksorted, by simp, ?_⟩
        intro a ha b hb
        rw [List.mem_singleton] at hb
        subst hb
        have := hle a (hksub a ha)
        omega
      · intro c hc
        rw [List.mem_append, List.mem_singleton] at hc
        rcases hc with hc | rfl
        · have := hle c (hksub c hc)
          omega
        · omega
      · unfold inWindowCount
        rw [List.filter_append]
        have hone : (List.filter (fun c => decide (t2 - window ≤ c)) [t2]).length ≤ 1 := by
          simp [List.filter]
          split <;> simp
        have hrestlen : (List.filter (fun c => decide (t2 - window ≤ c))
            (prune window t1 (prune window t0 s))).length ≤ mc - 1 :=
          le_trans (List.length_filter_le _ _) hklen
        rw [List.length_append]
        omega
  · -- under capacity: no sleep, the pruned list plus the new stamp
    have hw2 : wait_if_needed mc window s t0 t1 t2 = prune window t0 s ++ [t2] := by
      simp only [wait_if_needed]
      rw [if_neg hcap]
    rw [hw2]
    refine ⟨?_, ?_, ?_⟩
    · rw [List.Sorted, List.pairwise_append]
      refine ⟨hpsorted, by simp, ?_⟩
      intro a ha b hb
      rw [List.mem_singleton] at hb
      subst hb
      have := hle a (hpsub a ha)
      omega
    · intro c hc
      rw [List.mem_append, List.mem_singleton] at hc
      rcases hc with hc | rfl
      · have := hle c (hpsub c hc)
        omega
      · omega
    · unfold inWindowCount
      rw [List.filter_append, List.length_append]
      have h1 : (List.filter (fun c => decide (t2 - window ≤ c)) (prune window t0 s)).length ≤
          (prune window t0 s).length := List.length_filter_le _ _
      have h2 : (List.filter (fun c => decide (t2 - window ≤ c)) [t2]).length ≤ 1 := by
        simp [List.filter]
        split <;> simp
      omega

theorem traceEnd_cons (tprev : Int) (st : RLStep) (rest : List RLStep) :
    traceEnd tprev (st :: rest) = traceEnd st.t2 rest := by
  unfold traceEnd
  cases rest with
  | nil => rfl
  | cons r rs =>
    rw [List.getLast?_cons_cons]
    cases h : (r :: rs).getLast? with
    | some x => rfl
    | none => simp at h

/-- The invariant holds after every call of a non-degenerate well-formed
trace. -/
theorem runRL_inv {mc : Nat} {window : Int} (hmc : 1 ≤ mc) (hw : 0 < window) :
    ∀ (steps : List RLStep) (tprev : Int) (s : List Int),
      RLInv mc window tprev s → validTraceND mc window tprev s steps = true →
      RLInv mc window (traceEnd tprev steps) (runRL mc window s steps) := by
  intro steps
  induction steps with
  | nil => intro tprev s hInv _; exact hInv
  | cons st rest ih =>
    intro tprev s hInv hvt
    simp only [validTraceND, Bool.and_eq_true] at hvt
    obtain ⟨⟨hWF, hND⟩, hrest⟩ := hvt
    rw [traceEnd_cons]
    have hstep : RLInv mc window st.t2 (wait_if_needed mc window s st.t0 st.t1 st.t2) :=
      wait_preserves hmc hw hInv (by cases st; exact hWF) (by cases st; exact hND)
    exact ih st.t2 _ hstep hrest

/-- C9 counterexample: with `max_calls = 2`, `time_window = 10 s`, a
single-threaded monotone-clock trace (two calls at t = 0, three at
t = 10 s, when the first two stamps are exactly one window old) is
well-formed for the source semantics, yet after the fifth return all five
recorded timestamps lie within the trailing window — the count is 5 > 2,
and `wait_if_needed` never slept and never errored. -/
theorem C9_counterexample :
    validTrace 2 10000000 0 [] cxTrace = true ∧
    runRL 2 10000000 [] cxTrace = [0, 0, 10000000, 10000000, 10000000] ∧
    2 < inWindowCount 10000000 (traceEnd 0 cxTrace) (runRL 2 10000000 [] cxTrace) := by
  refine ⟨by decide, by decide, by decide⟩

/-- C9 (amended): for a limiter with `max_calls ≥ 1` and positive window,
run single-threaded under a monotone clock, **provided no admission
happens at the exact instant the oldest in-window timestamp turns
`time_window` old** (`stepNondegenerate`), the number of recorded
timestamps within the trailing window after every return is at most
`max_calls`; moreover `wait_if_needed` is a total function that always
returns a sub-sequence of the old timestamps with exactly one new
timestamp appended — it can only delay, never error. -/
theorem C9_amended_proof (mc : Nat) (window tstart : Int) (steps : List RLStep)
    (hmc : 1 ≤ mc) (hw : 0 < window)
    (hvt : validTraceND mc window tstart [] steps = true) :
    (∀ (s : List Int) (t0 t1 t2 : Int), ∃ kept, List.Sublist kept s ∧
       wait_if_needed mc window s t0 t1 t2 = kept ++ [t2]) ∧
    inWindowCount window (traceEnd tstart steps) (runRL mc window [] steps) ≤ mc := by
  constructor
  · intro s t0 t1 t2
    refine ⟨if mc ≤ (prune window t0 s).length then
        (if 0 < sleepTime window t0 (prune window t0 s) then
          prune window t1 (prune window t0 s) else prune window t0 s)
      else prune window t0 s, ?_, rfl⟩
    split
    · split
      · exact List.Sublist.trans (List.dropWhile_sublist _) (List.dropWhile_sublist _)
      · exact List.dropWhile_sublist _
    · exact List.dropWhile_sublist _
  · have hInv0 : RLInv mc window tstart [] := by
      refine ⟨List.sorted_nil, by simp, by simp [inWindowCount]⟩
    exact (runRL_inv hmc hw steps tstart [] hInv0 hvt).2.2

/-- C9 witness: the non-degenerate three-call trace (third call sleeps
8.1 s); the invariant holds at its end, and one admission from the empty
state appends exactly one timestamp. -/
theorem C9_witness :
    (∃ kept, List.Sublist kept ([] : List Int) ∧
       wait_if_needed 2 10000000 [] 0 0 0 = kept ++ [0]) ∧
    inWindowCount 10000000 (traceEnd 0 ndTrace) (runRL 2 10000000 [] ndTrace) ≤ 2 :=
  ⟨(C9_amended_proof 2 10000000 0 ndTrace (by decide) (by decide) (by decide)).1 [] 0 0 0,
   (C9_amended_proof 2 10000000 0 ndTrace (by decide) (by decide) (by decide)).2⟩

end DocAnalyzer
